import Mathlib

/-!
Shallow embedding of the `textlayout` repository pieces relevant to the
frozen claims: the fontconfig `Pattern` data model (`fontconfig/init.go`,
which also carries the pattern operations and `SubstituteDefault`), the
configuration bootstrap (`initLoadOwnConfig` / `initFallbackConfig`), the
Graphite `Sill` table (`graphite/table_sill.go`, which also carries the
Myanmar complex shaper), and the OpenType shaper dispatch
(`hb_ot_shape_complex_categorize`).

Go machine integers are embedded as `Nat`/`Int` with explicit `% 2^w`
where truncation matters; Go `float64` values are embedded as `ℚ`
(exact arithmetic; the claims under study concern which values flow
where, not IEEE rounding).  Definitions that embed code missing from
the provided sources are marked `Modelled from the spec:` in their doc
comments.
-/

namespace Fontconfig

/-- The result type of pattern lookups (`Result` in the Go source:
`ResultMatch`, `ResultNoMatch`, `ResultNoId`, `ResultTypeMismatch`). -/
inductive Result where
  | matched
  | noMatch
  | noId
  | typeMismatch
  deriving DecidableEq, Repr

/-- Modelled from the spec: `Binding` is the priority tag on a value,
Strong (user-specified) or Weak (fallback); the Go `ValueBinding`
constants used by the sources are `ValueBindingStrong` and
`ValueBindingWeak`. -/
inductive Binding where
  | strong
  | weak
  deriving DecidableEq, Repr

/-- Modelled from the spec: `Value` is a closed tagged union over
{boolean, integer, float, string, matrix, charset, range, language set}.
The Go fontconfig boolean is a small integer (`False = 0`, `True = 1`,
plus a dont-care value), floats are embedded as `ℚ`, a charset as its
list of code points and a language set as its list of language names.
`vNull` stands for the Go `nil` interface value that lookups return when
nothing is found. -/
inductive Value where
  | vNull
  | vBool (b : Nat)
  | vInt (i : Int)
  | vFloat (q : ℚ)
  | vString (s : String)
  | vMatrix (xx xy yx yy : ℚ)
  | vCharset (cs : List Nat)
  | vRange (lo hi : ℚ)
  | vLangset (ls : List String)
  deriving DecidableEq, Repr

/-- Modelled from the spec: the kinds of the `Value` tagged union. -/
inductive ValueKind where
  | kBool
  | kInt
  | kFloat
  | kString
  | kMatrix
  | kCharset
  | kRange
  | kLangset
  deriving DecidableEq, Repr

/-- The kind of a value; the Go `nil` interface value has no kind. -/
def Value.kind : Value → Option ValueKind
  | .vNull => none
  | .vBool _ => some .kBool
  | .vInt _ => some .kInt
  | .vFloat _ => some .kFloat
  | .vString _ => some .kString
  | .vMatrix _ _ _ _ => some .kMatrix
  | .vCharset _ => some .kCharset
  | .vRange _ _ => some .kRange
  | .vLangset _ => some .kLangset

/-- A `(Value, Binding)` pair, `valueElt` in the Go source. -/
structure valueElt where
  value : Value
  binding : Binding
  deriving DecidableEq, Repr

/-- An ordered sequence of `(Value, Binding)` pairs for one object. -/
abbrev valueList := List valueElt

/-- `Object` is an enumerated identifier (a Go `uint16`) naming a font
property; embedded as `Nat`. -/
abbrev Object := Nat

/-! Modelled from the spec: the enumerated `Object` identifiers used by
the embedded operations.  The spec fixes a finite enumerated set of
small integers; distinct identifiers are what matters, the particular
numerals follow the declaration order of the fontconfig object list. -/

def FAMILY : Object := 1
def FAMILYLANG : Object := 2
def STYLE : Object := 3
def STYLELANG : Object := 4
def FULLNAME : Object := 5
def FULLNAMELANG : Object := 6
def SLANT : Object := 7
def WEIGHT : Object := 8
def WIDTH : Object := 9
def SIZE : Object := 10
def ASPECT : Object := 11
def PIXEL_SIZE : Object := 12
def SPACING : Object := 13
def HINTING : Object := 14
def VERTICAL_LAYOUT : Object := 15
def AUTOHINT : Object := 16
def GLOBAL_ADVANCE : Object := 17
def EMBEDDED_BITMAP : Object := 18
def DECORATIVE : Object := 19
def SYMBOL : Object := 20
def VARIABLE : Object := 21
def FONTVERSION : Object := 22
def HINT_STYLE : Object := 23
def NAMELANG : Object := 24
def PRGNAME : Object := 25
def ORDER : Object := 26
def CHARSET : Object := 27
def LANG : Object := 28
def SCALE : Object := 29
def DPI : Object := 30

/-! Modelled from the spec: the named constants used by
`SubstituteDefault` (their numeric values follow upstream fontconfig;
only the values themselves are stored, nothing depends on their size). -/

def WEIGHT_NORMAL : Int := 80
def SLANT_ROMAN : Int := 0
def WIDTH_NORMAL : Int := 100
def HINT_FULL : Int := 3

/-- Modelled from the spec: each `Object` has a declared set of
admissible `Value` kinds ("an explicit per-Object table mapping Object →
allowed variant tags"); objects outside the built-in table (the
extensible caller-defined range) accept any kind. -/
def admissibleKind (o : Object) (k : ValueKind) : Bool :=
  if o = FAMILY ∨ o = FAMILYLANG ∨ o = STYLE ∨ o = STYLELANG ∨
      o = FULLNAME ∨ o = FULLNAMELANG ∨ o = NAMELANG ∨ o = PRGNAME then
    k = .kString
  else if o = SLANT ∨ o = SPACING ∨ o = FONTVERSION ∨ o = HINT_STYLE ∨ o = ORDER then
    k = .kInt
  else if o = WEIGHT ∨ o = WIDTH then
    k = .kInt ∨ k = .kFloat ∨ k = .kRange
  else if o = SIZE then
    k = .kFloat ∨ k = .kRange
  else if o = ASPECT ∨ o = PIXEL_SIZE ∨ o = SCALE ∨ o = DPI then
    k = .kFloat
  else if o = HINTING ∨ o = VERTICAL_LAYOUT ∨ o = AUTOHINT ∨ o = GLOBAL_ADVANCE ∨
      o = EMBEDDED_BITMAP ∨ o = DECORATIVE ∨ o = SYMBOL ∨ o = VARIABLE then
    k = .kBool
  else if o = CHARSET then
    k = .kCharset
  else if o = LANG then
    k = .kLangset
  else
    true

/-- Modelled from the spec: `Object.hasValidType` checks that the stored
kind of a value is admissible for the object; the Go `nil` value matches
no kind and is rejected. -/
def hasValidType (o : Object) (v : Value) : Bool :=
  match v.kind with
  | none => false
  | some k => admissibleKind o k

/-- A `Pattern` maps `Object`s to value lists.  The Go representation is
a hash map (no observable ordering); it is embedded as an association
list kept with strictly increasing keys (the canonical functional
representation of a finite map), `Pattern.wf` below. -/
abbrev Pattern := List (Nat × valueList)

/-- Well-formedness of the canonical map representation: keys strictly
increase along the list. -/
def Pattern.wf (p : Pattern) : Prop :=
  List.Pairwise (fun a b => a.1 < b.1) p

instance (p : Pattern) : Decidable p.wf := by
  unfold Pattern.wf; infer_instance

/-- Map lookup (`p[object]` in Go; `none` is Go's `nil` entry). -/
def Pattern.find : Pattern → Object → Option valueList
  | [], _ => none
  | e :: t, o => if e.1 = o then some e.2 else Pattern.find t o

/-- Map store (`p[object] = l` in Go), keeping keys sorted. -/
def Pattern.set : Pattern → Object → valueList → Pattern
  | [], o, l => [(o, l)]
  | e :: t, o, l =>
    if o < e.1 then (o, l) :: e :: t
    else if e.1 = o then (o, l) :: t
    else e :: Pattern.set t o l

/-- Map removal (`delete(p, object)` in Go). -/
def Pattern.erase : Pattern → Object → Pattern
  | [], _ => []
  | e :: t, o => if e.1 = o then t else e :: Pattern.erase t o

/-- `NewPattern` returns an empty pattern. -/
def NewPattern : Pattern := []

/-- `getVals` resolves a `nil`/missing entry to the empty list. -/
def Pattern.getVals (p : Pattern) (o : Object) : valueList :=
  (p.find o).getD []

/-- Whether the object is present (`p[object] != nil` in Go; an entry
holding an empty list counts as present). -/
def Pattern.hasKey (p : Pattern) (o : Object) : Bool :=
  (p.find o).isSome

/-- `AddList` adds the given list of values for the given object; it
first checks every value's kind against the object's admissible kinds
and degrades to a (logged) no-op if any value is rejected.  `appendMode`
controls whether the list goes after or before the current values. -/
def Pattern.AddList (p : Pattern) (o : Object) (l : valueList) (appendMode : Bool) : Pattern :=
  if l.all (fun e => hasValidType o e.value) then
    p.set o (if appendMode then p.getVals o ++ l else l ++ p.getVals o)
  else
    p

/-- `addWithBinding` wraps one value with a binding and inserts it. -/
def Pattern.addWithBinding (p : Pattern) (o : Object) (v : Value) (b : Binding)
    (appendMode : Bool) : Pattern :=
  p.AddList o [⟨v, b⟩] appendMode

/-- `Add` adds the given value with a strong binding. -/
def Pattern.Add (p : Pattern) (o : Object) (v : Value) (appendMode : Bool) : Pattern :=
  p.addWithBinding o v .strong appendMode

/-- `AddBool` (the Go fontconfig boolean is 0 or 1 here). -/
def Pattern.AddBool (p : Pattern) (o : Object) (b : Bool) : Pattern :=
  p.Add o (.vBool (if b then 1 else 0)) true

/-- `AddInteger`. -/
def Pattern.AddInteger (p : Pattern) (o : Object) (i : Int) : Pattern :=
  p.Add o (.vInt i) true

/-- `AddFloat`. -/
def Pattern.AddFloat (p : Pattern) (o : Object) (q : ℚ) : Pattern :=
  p.Add o (.vFloat q) true

/-- `AddString`. -/
def Pattern.AddString (p : Pattern) (o : Object) (s : String) : Pattern :=
  p.Add o (.vString s) true

/-- `Del` removes all the values associated to `object`. -/
def Pattern.Del (p : Pattern) (o : Object) : Pattern :=
  p.erase o

/-- Modelled from the spec: `valueList.insert` splices a list of values
into an existing list at a position (the family-table index bookkeeping
that the Go version also updates is outside the pattern's content and is
elided).  Only the `position = -1` form used by `addWithTable` is
embedded: append or prepend the new values. -/
def valueListInsert (old : valueList) (appendMode : Bool) (newList : valueList) : valueList :=
  if appendMode then old ++ newList else newList ++ old

/-- `addWithTable` inserts values for an object through
`valueList.insert`; unlike `AddList` its body performs no admissibility
check on the inserted values. -/
def Pattern.addWithTable (p : Pattern) (o : Object) (l : valueList) (appendMode : Bool) :
    Pattern :=
  p.set o (valueListInsert (p.getVals o) appendMode l)

/-- `GetAt` returns the value in position `id` for `object`, without
type conversion, together with a distinguished result code. -/
def Pattern.GetAt (p : Pattern) (o : Object) (id : Nat) : Value × Result :=
  match p.find o with
  | none => (.vNull, .noMatch)
  | some l =>
    match l[id]? with
    | none => (.vNull, .noId)
    | some e => (e.value, .matched)

/-- `GetBool`: the potential boolean at `object`, index 0. -/
def Pattern.GetBool (p : Pattern) (o : Object) : Nat × Bool :=
  let vr := p.GetAt o 0
  if vr.2 ≠ .matched then (0, false)
  else match vr.1 with
    | .vBool b => (b, true)
    | _ => (0, false)

/-- `GetString`: the potential string at `object`, index 0. -/
def Pattern.GetString (p : Pattern) (o : Object) : String × Bool :=
  let vr := p.GetAt o 0
  if vr.2 ≠ .matched then ("", false)
  else match vr.1 with
    | .vString s => (s, true)
    | _ => ("", false)

/-- `GetAtString`: string at `object`, position `id`, with a result code
that distinguishes a type mismatch from a missing value. -/
def Pattern.GetAtString (p : Pattern) (o : Object) (id : Nat) : String × Result :=
  let vr := p.GetAt o id
  if vr.2 ≠ .matched then ("", vr.2)
  else match vr.1 with
    | .vString s => (s, .matched)
    | _ => ("", .typeMismatch)

/-- `GetInt`: the potential integer at `object`, index 0. -/
def Pattern.GetInt (p : Pattern) (o : Object) : Int × Bool :=
  let vr := p.GetAt o 0
  if vr.2 ≠ .matched then (0, false)
  else match vr.1 with
    | .vInt i => (i, true)
    | _ => (0, false)

/-- `GetFloat`: the potential float at `object`, index 0. -/
def Pattern.GetFloat (p : Pattern) (o : Object) : ℚ × Bool :=
  let vr := p.GetAt o 0
  if vr.2 ≠ .matched then (0, false)
  else match vr.1 with
    | .vFloat q => (q, true)
    | _ => (0, false)

/-- `GetMatrix`: the potential matrix at `object`, index 0 (a failed
lookup or type assertion yields the zero matrix and `false`). -/
def Pattern.GetMatrix (p : Pattern) (o : Object) : (ℚ × ℚ × ℚ × ℚ) × Bool :=
  let vr := p.GetAt o 0
  if vr.2 ≠ .matched then ((0, 0, 0, 0), false)
  else match vr.1 with
    | .vMatrix a b c d => ((a, b, c, d), true)
    | _ => ((0, 0, 0, 0), false)

/-- `GetCharset`: the potential charset at `object`, index 0. -/
def Pattern.GetCharset (p : Pattern) (o : Object) : List Nat × Bool :=
  let vr := p.GetAt o 0
  if vr.2 ≠ .matched then ([], false)
  else match vr.1 with
    | .vCharset cs => (cs, true)
    | _ => ([], false)

/-! ### Hash -/

/-- Helper for the injective serializations below: sign/magnitude code
of an integer. -/
def natOfInt (i : Int) : Nat :=
  Nat.pair i.natAbs (if 0 ≤ i then 0 else 1)

/-- Helper: numerator/denominator code of a rational. -/
def natOfRat (q : ℚ) : Nat :=
  Nat.pair (natOfInt q.num) q.den

/-- Helper: standard injective code of a list of naturals. -/
def natOfList (l : List Nat) : Nat :=
  l.foldr (fun a b => Nat.pair a b + 1) 0

/-- Helper: code of a string through its character codes. -/
def natOfString (s : String) : Nat :=
  natOfList (s.data.map Char.toNat)

/-- Helper: tagged code of a value. -/
def natOfValue : Value → Nat
  | .vNull => Nat.pair 0 0
  | .vBool b => Nat.pair 1 b
  | .vInt i => Nat.pair 2 (natOfInt i)
  | .vFloat q => Nat.pair 3 (natOfRat q)
  | .vString s => Nat.pair 4 (natOfString s)
  | .vMatrix a b c d =>
    Nat.pair 5 (Nat.pair (natOfRat a) (Nat.pair (natOfRat b) (Nat.pair (natOfRat c) (natOfRat d))))
  | .vCharset cs => Nat.pair 6 (natOfList cs)
  | .vRange lo hi => Nat.pair 7 (Nat.pair (natOfRat lo) (natOfRat hi))
  | .vLangset ls => Nat.pair 8 (natOfList (ls.map natOfString))

/-- Helper: code of a binding. -/
def natOfBinding : Binding → Nat
  | .strong => 0
  | .weak => 1

/-- Helper: code of a `(Value, Binding)` pair. -/
def natOfElt (e : valueElt) : Nat :=
  Nat.pair (natOfValue e.value) (natOfBinding e.binding)

/-- Modelled from the spec: `valueList.Hash`, the per-object value-list
hash that `Pattern.Hash` concatenates.  The spec requires two patterns
with identical canonical content to hash identically, with order
significant inside one list, so the list hash is a deterministic,
injective serialization of the (ordered) value list. -/
def valueListHash (l : valueList) : List Nat :=
  [natOfList (l.map natOfElt)]

/-- Big-endian byte encoding of a Go `uint16` (`binary.BigEndian.PutUint16`). -/
def enc16 (n : Nat) : List Nat :=
  [n % 65536 / 256, n % 256]

/-- Big-endian byte encoding of a Go `uint32` (`binary.BigEndian.PutUint32`). -/
def enc32 (n : Nat) : List Nat :=
  [n % 4294967296 / 16777216, n % 16777216 / 65536, n % 65536 / 256, n % 256]

/-- `Hash` returns a byte string defining the pattern in terms of
equality.  The Go code walks the objects in sorted key order (the
canonical representation here is already key-sorted), skips `nil` or
empty value lists, and emits the 2-byte object id, the 4-byte length of
the value-list hash, then the value-list hash itself. -/
def Pattern.Hash (p : Pattern) : List Nat :=
  p.flatMap fun e =>
    if e.2.isEmpty then []
    else enc16 e.1 ++ enc32 (valueListHash e.2).length ++ valueListHash e.2

/-- The canonical content of a pattern: entries with a `nil` or empty
value list removed (what the source's `canon` normalizes away; such
entries are invisible to `Hash`, `GetAt` and `getVals`). -/
def Pattern.canonical (p : Pattern) : Pattern :=
  p.filter fun e => !e.2.isEmpty

/-- The typing invariant of the data model: every value stored under an
object has a kind admissible for that object. -/
def WellTyped (p : Pattern) : Prop :=
  ∀ x ∈ p, ∀ e ∈ x.2, hasValidType x.1 e.value = true

instance (p : Pattern) : Decidable (WellTyped p) := by
  unfold WellTyped; infer_instance

/-- The C1 scenario pattern: built by adding `{FAMILY: "x"}` then
`{STYLE: "y"}`. -/
def patternAB : Pattern :=
  Pattern.AddString (Pattern.AddString NewPattern FAMILY "x") STYLE "y"

/-- The C1 scenario pattern with the two additions in the other order. -/
def patternBA : Pattern :=
  Pattern.AddString (Pattern.AddString NewPattern STYLE "y") FAMILY "x"

/-! ### SubstituteDefault -/

/-- Modelled from the spec: the process-locale default name-language,
abstracted as an explicit environment constant ("abstracted as an
explicit environment value (locale/program-name) passed into
`SubstituteDefault`"). -/
def getDefaultLang : String := "en"

/-- Modelled from the spec: the program-name environment constant. -/
def getProgramName : String := "textlayout"

/-- The table of boolean defaults supplied for absent boolean objects. -/
def boolDefaults : List (Object × Bool) :=
  [(HINTING, true), (VERTICAL_LAYOUT, false), (AUTOHINT, false), (GLOBAL_ADVANCE, true),
    (EMBEDDED_BITMAP, true), (DECORATIVE, false), (SYMBOL, false), (VARIABLE, false)]

/-- One `if pattern[o] == nil { pattern.AddInteger(o, v) }` step. -/
def Pattern.fillInt (p : Pattern) (o : Object) (v : Int) : Pattern :=
  if p.hasKey o then p else p.AddInteger o v

/-- One `if pattern[o] == nil { pattern.AddBool(o, v) }` step. -/
def Pattern.fillBool (p : Pattern) (o : Object) (b : Bool) : Pattern :=
  if p.hasKey o then p else p.AddBool o b

/-- One `if pattern[o] == nil { pattern.AddString(o, s) }` step. -/
def Pattern.fillString (p : Pattern) (o : Object) (s : String) : Pattern :=
  if p.hasKey o then p else p.AddString o s

/-- The loop over `boolDefaults` in `SubstituteDefault`. -/
def Pattern.fillBools (p : Pattern) : Pattern :=
  boolDefaults.foldl (fun q bd => q.fillBool bd.1 bd.2) p

/-- The nominal size read in `SubstituteDefault`: the first `SIZE` value
if it is a float, the midpoint of a `Range` size, and 12 otherwise. -/
def Pattern.defaultedSize (p : Pattern) : ℚ :=
  match (p.GetAt SIZE 0).1 with
  | .vFloat f => f
  | .vRange lo hi => (lo + hi) * (1 / 2)
  | _ => 12

/-- The scale read in `SubstituteDefault` (`GetFloat`, defaulting to 1). -/
def Pattern.defaultedScale (p : Pattern) : ℚ :=
  let t := p.GetFloat SCALE
  if t.2 then t.1 else 1

/-- The dpi read in `SubstituteDefault` (`GetFloat`, defaulting to 75). -/
def Pattern.defaultedDpi (p : Pattern) : ℚ :=
  let t := p.GetFloat DPI
  if t.2 then t.1 else 75

/-- The first `PIXEL_SIZE` value as a float (the Go type assertion
yields 0 when the value is not a float). -/
def Pattern.pixelHead (p : Pattern) : ℚ :=
  match p.getVals PIXEL_SIZE with
  | [] => 0
  | e :: _ => match e.value with | .vFloat f => f | _ => 0

/-- The point-size / pixel-size resolution block of `SubstituteDefault`
(lines 586-618 of the source): when no pixel size is stored, store the
scale, the dpi and the derived pixel size `size * scale * dpi / 72`;
otherwise back-compute the point size from the stored pixel size; in
both cases re-store `SIZE`. -/
def Pattern.sizeStage (p : Pattern) : Pattern :=
  let size := p.defaultedSize
  let scale := p.defaultedScale
  let dpi := p.defaultedDpi
  let step :=
    if (p.getVals PIXEL_SIZE).length = 0 then
      let p1 := p.Del SCALE
      let p2 := p1.AddFloat SCALE scale
      let pixelsize := size * scale
      let p3 := p2.Del DPI
      let p4 := p3.AddFloat DPI dpi
      let pixelsize := pixelsize * (dpi / 72)
      (p4.AddFloat PIXEL_SIZE pixelsize, size)
    else
      (p, p.pixelHead / dpi * 72 / scale)
  ((step.1.Del SIZE).AddFloat SIZE step.2 : Pattern)

/-- The size ultimately stored at `SIZE` by `Pattern.sizeStage`. -/
def Pattern.sizeResult (p : Pattern) : ℚ :=
  if (p.getVals PIXEL_SIZE).length = 0 then p.defaultedSize
  else p.pixelHead / p.defaultedDpi * 72 / p.defaultedScale

/-- The name-language fallback block: when object `o` (a family /
style / fullname language object) is unset, add the resolved
name-language as a strong value and `"en-us"` as a weak fallback. -/
def Pattern.langFill (p : Pattern) (o : Object) (namelang : Value) : Pattern :=
  if p.hasKey o then p
  else ((p.Add o namelang true).addWithBinding o (.vString "en-us") .weak true : Pattern)

/-- The program-name block: when `PRGNAME` is unset and the program
name environment value is nonempty, add it. -/
def Pattern.prgnameFill (p : Pattern) : Pattern :=
  if p.hasKey PRGNAME then p
  else if getProgramName = "" then p else p.AddString PRGNAME getProgramName

/-- The stages of `SubstituteDefault` before the size resolution:
weight/slant/width defaults and the boolean default table. -/
def Pattern.preSize (p : Pattern) : Pattern :=
  (((p.fillInt WEIGHT WEIGHT_NORMAL).fillInt SLANT SLANT_ROMAN).fillInt WIDTH
    WIDTH_NORMAL).fillBools

/-- The stages of `SubstituteDefault` after the size resolution: font
version, hint style, name-language, the three language fallbacks (all
reading the resolved name-language), program name and match order. -/
def Pattern.postSize (p : Pattern) : Pattern :=
  let p := p.fillInt FONTVERSION 0x7fffffff
  let p := p.fillInt HINT_STYLE HINT_FULL
  let p := p.fillString NAMELANG getDefaultLang
  let namelang := (p.GetAt NAMELANG 0).1
  let p := p.langFill FAMILYLANG namelang
  let p := p.langFill STYLELANG namelang
  let p := p.langFill FULLNAMELANG namelang
  let p := p.prgnameFill
  p.fillInt ORDER 0

/-- `SubstituteDefault` performs default substitutions in a pattern,
supplying default values for underspecified font patterns, following
the source line by line: weight/slant/width defaults, the boolean
default table, the point-size / pixel-size resolution, font version,
hint style, name-language with the `"en-us"` weak fallback on the
family/style/fullname language objects, program name and match order. -/
def Pattern.SubstituteDefault (p : Pattern) : Pattern :=
  ((p.preSize).sizeStage).postSize

/-! ### Configuration bootstrap (`initLoadOwnConfig` / `initFallbackConfig`) -/

def CONFIGDIR : String := "/usr/local/etc/fonts/conf.d"
def FC_CACHEDIR : String := "/var/local/cache/fontconfig"
def FC_DEFAULT_FONTS : String := "<dir>/usr/share/fonts</dir>"
def FC_TEMPLATEDIR : String := "/usr/local/share/fontconfig/conf.avail"

/-- Modelled from the spec: a loaded configuration, reduced to the list
of sources successfully loaded into it (rule parsing internals are
outside the provided sources; the claim under study concerns only which
configuration the bootstrap hands back and whether an error escapes). -/
structure Config where
  sources : List String
  deriving DecidableEq, Repr

/-- A configuration load error. -/
inductive ConfigError where
  | parseFailure (path : String)
  deriving DecidableEq, Repr

/-- `NewConfig` returns an empty configuration. -/
def NewConfig : Config := ⟨[]⟩

/-- Modelled from the spec: the environment seen by `parseConfig` — the
configuration source is an external collaborator, so which paths fail to
parse is an input. -/
structure LoadEnv where
  fails : String → Bool

/-- Modelled from the spec: `Config.parseConfig` parses the rule files
at `path` into the configuration; a malformed rule file is fatal to the
Load operation and surfaces as a distinct error. -/
def parseConfig (env : LoadEnv) (c : Config) (path : String) : Except ConfigError Config :=
  if env.fails path then .error (.parseFailure path)
  else .ok ⟨c.sources ++ [path]⟩

/-- The hard-coded fallback configuration text built by
`initFallbackConfig` (the `fmt.Sprintf` interpolation of the source). -/
def fallbackText : String :=
  "\t\n\t <fontconfig>\n\t  \t" ++ FC_DEFAULT_FONTS ++
  "\n\t\t<cachedir>" ++ FC_CACHEDIR ++ "</cachedir>\n" ++
  "\t\t<cachedir prefix=\"xdg\">fontconfig</cachedir>\n" ++
  "\t\t<include ignore_missing=\"yes\">" ++ CONFIGDIR ++ "</include>\n" ++
  "\t\t<include ignore_missing=\"yes\" prefix=\"xdg\">fontconfig/conf.d</include>\n" ++
  "\t\t<include ignore_missing=\"yes\" prefix=\"xdg\">fontconfig/fonts.conf</include>\n" ++
  "\t </fontconfig>\n\t "

/-- Modelled from the spec: `Config.LoadFromMemory` loads an in-memory
configuration text; the hard-coded built-in rule set is well-formed, so
loading it succeeds ("'no usable config' is recovered by substituting a
hard-coded default rule set"). -/
def LoadFromMemory (c : Config) (text : String) : Config × Option ConfigError :=
  (⟨c.sources ++ [text]⟩, none)

/-- `initFallbackConfig` builds the minimal hard-coded built-in
configuration. -/
def initFallbackConfig : Config × Option ConfigError :=
  LoadFromMemory NewConfig fallbackText

/-- `initLoadOwnConfig` loads the configuration files: when parsing the
primary configuration fails it falls back to `initFallbackConfig`; a
failure on the template directory is propagated (`nil, err`). -/
def initLoadOwnConfig (env : LoadEnv) : Option Config × Option ConfigError :=
  match parseConfig env NewConfig "" with
  | .error _ => (some initFallbackConfig.1, initFallbackConfig.2)
  | .ok config =>
    match parseConfig env config FC_TEMPLATEDIR with
    | .error e => (none, some e)
    | .ok config => (some config, none)

end Fontconfig

namespace Graphite

/-- Go `Tag`, a `uint32`. -/
abbrev Tag := Nat

/-- Replace the trailing space bytes of a tag by zero
(`spaceToZero` in `table_sill.go`). -/
def spaceToZero (x : Tag) : Nat :=
  if x = 0x20202020 then 0
  else if x &&& 0x00FFFFFF = 0x00202020 then x &&& 0xFF000000
  else if x &&& 0x0000FFFF = 0x00002020 then x &&& 0xFFFF0000
  else if x &&& 0x000000FF = 0x00000020 then x &&& 0xFFFFFF00
  else x

/-- The inverse direction (`zeroToSpace` in `table_sill.go`), written
exactly as the source computes it. -/
def zeroToSpace (x : Nat) : Tag :=
  if x = 0 then 0x20202020
  else if x &&& 0x00FFFFFF = 0 then x &&& 0xFF202020
  else if x &&& 0x0000FFFF = 0 then x &&& 0xFFFF2020
  else if x &&& 0x000000FF = 0 then x &&& 0xFFFFFF20
  else x

/-- One feature setting of a `Sill` language record. -/
structure languageSetting where
  FeatureId : Nat
  Value : Int
  deriving DecidableEq, Repr

/-- One language record of the `Sill` table. -/
structure languageRecord where
  settings : List languageSetting
  langcode : Nat
  deriving DecidableEq, Repr

/-- The `Sill` table: the list of language records. -/
abbrev TableSill := List languageRecord

/-- Modelled from the spec: one feature of the font's `Feat` table —
its id (internal, zero-padded convention), its flags and its default
setting value.  The `Feat` table itself is outside the provided
sources. -/
structure grFeature where
  id : Nat
  flags : Nat
  defaultValue : Int
  deriving DecidableEq, Repr

/-- The font's feature table. -/
abbrev TableFeat := List grFeature

/-- Modelled from the spec: `TableFeat.findFeature` looks up the feature
with the given id in the font's feature table. -/
def findFeature (tf : TableFeat) (id : Nat) : Option grFeature :=
  tf.find? fun f => f.id == id

/-- A selected feature value handed back to callers. -/
structure FeatureValue where
  Id : Tag
  Flags : Nat
  Value : Int
  deriving DecidableEq, Repr

/-- The list of selected feature values. -/
abbrev FeaturesValue := List FeatureValue

/-- The final `sort.Slice(out, ...Id < ...Id)` of `applyValues`,
embedded as a sort by nondecreasing `Id` (Go's slice sort is an
unstable comparison sort; any `Id`-sorted permutation is faithful). -/
def sortByID (l : FeaturesValue) : FeaturesValue :=
  List.insertionSort (fun a b => a.Id ≤ b.Id) l

/-- Modelled from the spec: `TableFeat.defaultFeatures` returns every
feature of the font with its default value (used when no language
record matches). -/
def defaultFeatures (tf : TableFeat) : FeaturesValue :=
  tf.map fun f => ⟨zeroToSpace f.id, f.flags, f.defaultValue⟩

/-- `languageRecord.applyValues` resolves each setting of the record
against the font's feature table, drops settings whose feature the font
does not have, converts the id back to the external convention, and
sorts the result by feature id. -/
def languageRecord.applyValues (lr : languageRecord) (features : TableFeat) : FeaturesValue :=
  sortByID <| lr.settings.filterMap fun set =>
    (findFeature features set.FeatureId).map fun feat =>
      ⟨zeroToSpace set.FeatureId, feat.flags, set.Value⟩

/-- `TableSill.GetFeatures` selects the features and values for the
given language (first record whose code matches the space-normalized
language name), or the default ones if the language is not found. -/
def TableSill.GetFeatures (si : TableSill) (langname : Tag) (features : TableFeat) :
    FeaturesValue :=
  match si.find? (fun r => r.langcode == spaceToZero langname) with
  | some r => r.applyValues features
  | none => defaultFeatures features

end Graphite

namespace Opentype

/-! ### Myanmar shaper glyph classes

The first block of constants is the part declared in the source
(`table_sill.go`, Myanmar section); the remaining categories and the
position values come from the upstream HarfBuzz Indic machinery the
file is ported from (modelled from the spec's ordered position set and
per-glyph classes, numbering as upstream). -/

def OT_C : Nat := 1
def OT_V : Nat := 2
def OT_N : Nat := 3
def OT_H : Nat := 4
def OT_M : Nat := 7
def OT_SM : Nat := 8
def OT_A : Nat := 10
def OT_PLACEHOLDER : Nat := 11
def OT_DOTTEDCIRCLE : Nat := 12
def OT_Ra : Nat := 16
def OT_CS : Nat := 19

def OT_As : Nat := 18
def OT_D0 : Nat := 20
def OT_DB : Nat := OT_N
def OT_GB : Nat := OT_PLACEHOLDER
def OT_MH : Nat := 21
def OT_MR : Nat := 22
def OT_MW : Nat := 23
def OT_MY : Nat := 24
def OT_PT : Nat := 25
def OT_VAbv : Nat := 26
def OT_VBlw : Nat := 27
def OT_VPre : Nat := 28
def OT_VPst : Nat := 29
def OT_VS : Nat := 30
def OT_P : Nat := 31
def OT_D : Nat := 32

def POS_START : Nat := 0
def POS_RA_TO_BECOME_REPH : Nat := 1
def POS_PRE_M : Nat := 2
def POS_PRE_C : Nat := 3
def POS_BASE_C : Nat := 4
def POS_AFTER_MAIN : Nat := 5
def POS_ABOVE_C : Nat := 6
def POS_BEFORE_SUB : Nat := 7
def POS_BELOW_C : Nat := 8
def POS_AFTER_SUB : Nat := 9
def POS_POST_C : Nat := 11

/-- Modelled from the spec: the syllable types produced by the Myanmar
syllable machine (ragel-generated, outside the provided sources); only
their distinctness matters. -/
def myanmarConsonantSyllable : Nat := 0

/-- Modelled from the spec: the broken-cluster syllable type. -/
def myanmarBrokenCluster : Nat := 2

/-- One glyph-info record of the shaping buffer, restricted to the
fields the Myanmar passes touch: the source code point, the
script-specific category (`AuxCategory`), the position / syllable
scratch field (`Aux2`) and the unsafe-to-break mask bit. -/
structure GlyphInfo where
  codepoint : Nat
  auxCategory : Nat
  aux2 : Nat
  unsafeToBreak : Bool
  deriving DecidableEq, Repr

instance : Inhabited GlyphInfo := ⟨⟨0, 0, 0, false⟩⟩

/-- Modelled from the spec: the Myanmar shaper's consonant test used to
locate the base ("scan forward for the first true consonant = base");
the consonant classes follow upstream HarfBuzz. -/
def is_consonant (g : GlyphInfo) : Bool :=
  g.auxCategory = OT_C ∨ g.auxCategory = OT_CS ∨ g.auxCategory = OT_Ra ∨
    g.auxCategory = OT_V ∨ g.auxCategory = OT_GB ∨ g.auxCategory = OT_DOTTEDCIRCLE

/-- Apply `f` to the glyphs with index in `[lo, hi)`. -/
def mapRange (f : GlyphInfo → GlyphInfo) (lo hi : Nat) (info : List GlyphInfo) :
    List GlyphInfo :=
  info.mapIdx fun i g => if lo ≤ i ∧ i < hi then f g else g

/-- Overwrite the `Aux2` field of the glyph at index `i`. -/
def setAux2 (info : List GlyphInfo) (i pos : Nat) : List GlyphInfo :=
  info.mapIdx fun j g => if j = i then { g with aux2 := pos } else g

/-- `foundSyllableMyanmar` tags every glyph of the syllable `[ts, te)`
with `(serial << 4) | syllableType` in `Aux2` and advances the serial
(wrapping 16 back to 1). -/
def foundSyllableMyanmar (syllableType ts te : Nat) (info : List GlyphInfo)
    (syllableSerial : Nat) : List GlyphInfo × Nat :=
  let info := mapRange (fun g => { g with aux2 := syllableSerial <<< 4 ||| syllableType }) ts te info
  let s := syllableSerial + 1
  (info, if s = 16 then 1 else s)

/-- Modelled from the spec: `buffer.UnsafeToBreak` marks the glyphs of
`[start, end)` unsafe-to-break so downstream line breaking never splits
the cluster. -/
def UnsafeToBreak (info : List GlyphInfo) (start end_ : Nat) : List GlyphInfo :=
  mapRange (fun g => { g with unsafeToBreak := true }) start end_ info

/-- `setupSyllablesMyanmar` for a buffer forming a single consonant
syllable: the syllable machine (ragel-generated, outside the provided
sources) tags the whole range through `foundSyllableMyanmar` with the
first serial, then every syllable range is marked unsafe-to-break. -/
def setupSyllablesMyanmarSingle (info : List GlyphInfo) : List GlyphInfo :=
  UnsafeToBreak (foundSyllableMyanmar myanmarConsonantSyllable 0 info.length info 1).1
    0 info.length

/-- The category of the glyph at index `i`. -/
def catAt (info : List GlyphInfo) (i : Nat) : Nat :=
  (info.getD i default).auxCategory

/-- The position-assignment loop of `initialReorderingConsonantSyllable`
("The following loop may be ugly, but it implements all of Myanmar
reordering!"), iterating `i` up to `end2` with the running position
state `pos`; the structural `fuel` argument counts the remaining
iterations (`end2 - i`, each step advancing `i` by one). -/
def myanmarPosLoopAux : Nat → List GlyphInfo → Nat → Nat → Nat → List GlyphInfo
  | 0, info, _, _, _ => info
  | fuel + 1, info, i, end2, pos =>
    if i < end2 then
      let g := info.getD i default
      if g.auxCategory = OT_MR then
        myanmarPosLoopAux fuel (setAux2 info i POS_PRE_C) (i + 1) end2 pos
      else if g.aux2 < POS_BASE_C then
        myanmarPosLoopAux fuel info (i + 1) end2 pos
      else if g.auxCategory = OT_VS then
        myanmarPosLoopAux fuel (setAux2 info i ((info.getD (i - 1) default).aux2)) (i + 1) end2 pos
      else if pos = POS_AFTER_MAIN ∧ g.auxCategory = OT_VBlw then
        myanmarPosLoopAux fuel (setAux2 info i POS_BELOW_C) (i + 1) end2 POS_BELOW_C
      else if pos = POS_BELOW_C ∧ g.auxCategory = OT_A then
        myanmarPosLoopAux fuel (setAux2 info i POS_BEFORE_SUB) (i + 1) end2 pos
      else if pos = POS_BELOW_C ∧ g.auxCategory = OT_VBlw then
        myanmarPosLoopAux fuel (setAux2 info i pos) (i + 1) end2 pos
      else if pos = POS_BELOW_C ∧ g.auxCategory ≠ OT_A then
        myanmarPosLoopAux fuel (setAux2 info i POS_AFTER_SUB) (i + 1) end2 POS_AFTER_SUB
      else
        myanmarPosLoopAux fuel (setAux2 info i pos) (i + 1) end2 pos
    else info

/-- The position-assignment loop entered with `fuel = end2 - i`. -/
def myanmarPosLoop (info : List GlyphInfo) (i end2 pos : Nat) : List GlyphInfo :=
  myanmarPosLoopAux (end2 - i) info i end2 pos

/-- Modelled from the spec: `buffer.Sort` stable-sorts the glyph
sub-range `[start, end)` by the comparator ("stable-sort the syllable's
glyph sub-range by the assigned tag, preserving relative order of
equal-tagged glyphs"); the comparator used by the Myanmar pass orders
by `Aux2`. -/
def sortRangeByAux2 (info : List GlyphInfo) (start end_ : Nat) : List GlyphInfo :=
  info.take start ++
    List.insertionSort (fun a b => a.aux2 ≤ b.aux2) ((info.drop start).take (end_ - start)) ++
    info.drop end_

/-- `initialReorderingConsonantSyllable`, embedded statement by
statement from the source.  Note that the source overwrites its `end`
parameter (`end = start; if hasReph { end = start + 3 }`) before the
assignment loops, and that overwritten value is also what the final
`buffer.Sort(start, end, ...)` receives. -/
def initialReorderingConsonantSyllable (info : List GlyphInfo) (start end_ : Nat) :
    List GlyphInfo :=
  let hasReph := decide (start + 3 ≤ end_) && (catAt info start == OT_Ra) &&
    (catAt info (start + 1) == OT_As) && (catAt info (start + 2) == OT_H)
  let limit := if hasReph then start + 3 else start
  let base0 := if hasReph then start else end_
  let base1 := if hasReph then base0 else limit
  let base :=
    match (List.range' limit (end_ - limit)).find? (fun i => is_consonant (info.getD i default)) with
    | some i => i
    | none => base1
  let end2 := if hasReph then start + 3 else start
  let info := mapRange (fun g => { g with aux2 := POS_AFTER_MAIN }) start end2 info
  let info := mapRange (fun g => { g with aux2 := POS_PRE_C }) end2 base info
  let i2 := max end2 base
  let step := if i2 < end2 then (setAux2 info i2 POS_BASE_C, i2 + 1) else (info, i2)
  let info := myanmarPosLoop step.1 step.2 end2 POS_AFTER_MAIN
  sortRangeByAux2 info start end2

/-- `reorderSyllableMyanmar` dispatches on the syllable type stored in
the low bits of `Aux2` at the syllable start. -/
def reorderSyllableMyanmar (info : List GlyphInfo) (start end_ : Nat) : List GlyphInfo :=
  let syllableType := (info.getD start default).aux2 &&& 0x0F
  if syllableType = myanmarBrokenCluster ∨ syllableType = myanmarConsonantSyllable then
    initialReorderingConsonantSyllable info start end_
  else info

/-- The Myanmar pipeline for a buffer forming a single consonant
syllable: syllable setup (tagging plus unsafe-to-break marking), then
the reordering pass. -/
def myanmarShapeSingleSyllable (info : List GlyphInfo) : List GlyphInfo :=
  reorderSyllableMyanmar (setupSyllablesMyanmarSingle info) 0 info.length

/-- The scenario input: a consonant syllable whose five glyphs are
classified `Ra, Asat, Halant, Consonant, VowelBelow` (code points
U+101B, U+103A, U+1039, U+1000, U+102F under `setMyanmarProperties`).
The initial `Aux2` scratch values are irrelevant: the syllable tagging
pass overwrites them before reordering reads them. -/
def myanmarRephaExample : List GlyphInfo :=
  [⟨0x101B, OT_Ra, 0, false⟩, ⟨0x103A, OT_As, 0, false⟩, ⟨0x1039, OT_H, 0, false⟩,
    ⟨0x1000, OT_C, 0, false⟩, ⟨0x102F, OT_VBlw, 0, false⟩]

/-! ### Shaper dispatch (`hb_ot_shape_complex_categorize`) -/

/-- `newTag` over a 4-character string (OpenType tags are big-endian
4-byte values). -/
def tagOfString (s : String) : Nat :=
  s.data.foldl (fun n c => n * 256 + c.toNat) 0

/-- Modelled from the spec: `HB_OT_TAG_DEFAULT_SCRIPT`, the generic
default OpenType script tag. -/
def tagDFLT : Nat := tagOfString "DFLT"

def tagLatn : Nat := tagOfString "latn"

def tagMymr : Nat := tagOfString "mymr"

/-! Modelled from the spec: the `language.Script` identifiers matched by
the dispatch switch — ISO 15924 script tags, as in the `language`
package the source imports. -/

def scriptArabic : Nat := tagOfString "Arab"
def scriptSyriac : Nat := tagOfString "Syrc"
def scriptThai : Nat := tagOfString "Thai"
def scriptLao : Nat := tagOfString "Laoo"
def scriptHangul : Nat := tagOfString "Hang"
def scriptHebrew : Nat := tagOfString "Hebr"
def scriptBengali : Nat := tagOfString "Beng"
def scriptDevanagari : Nat := tagOfString "Deva"
def scriptGujarati : Nat := tagOfString "Gujr"
def scriptGurmukhi : Nat := tagOfString "Guru"
def scriptKannada : Nat := tagOfString "Knda"
def scriptMalayalam : Nat := tagOfString "Mlym"
def scriptOriya : Nat := tagOfString "Orya"
def scriptTamil : Nat := tagOfString "Taml"
def scriptTelugu : Nat := tagOfString "Telu"
def scriptSinhala : Nat := tagOfString "Sinh"
def scriptKhmer : Nat := tagOfString "Khmr"
def scriptMyanmar : Nat := tagOfString "Mymr"
def scriptMyanmarZawgyi : Nat := tagOfString "Qaag"
def scriptTibetan : Nat := tagOfString "Tibt"
def scriptMongolian : Nat := tagOfString "Mong"
def scriptBuhid : Nat := tagOfString "Buhd"
def scriptHanunoo : Nat := tagOfString "Hano"
def scriptTagalog : Nat := tagOfString "Tglg"
def scriptTagbanwa : Nat := tagOfString "Tagb"
def scriptLimbu : Nat := tagOfString "Limb"
def scriptTaiLe : Nat := tagOfString "Tale"
def scriptBuginese : Nat := tagOfString "Bugi"
def scriptKharoshthi : Nat := tagOfString "Khar"
def scriptSylotiNagri : Nat := tagOfString "Sylo"
def scriptTifinagh : Nat := tagOfString "Tfng"
def scriptBalinese : Nat := tagOfString "Bali"
def scriptNko : Nat := tagOfString "Nkoo"
def scriptPhagsPa : Nat := tagOfString "Phag"
def scriptCham : Nat := tagOfString "Cham"
def scriptKayahLi : Nat := tagOfString "Kali"
def scriptLepcha : Nat := tagOfString "Lepc"
def scriptRejang : Nat := tagOfString "Rjng"
def scriptSaurashtra : Nat := tagOfString "Saur"
def scriptSundanese : Nat := tagOfString "Sund"
def scriptEgyptianHieroglyphs : Nat := tagOfString "Egyp"
def scriptJavanese : Nat := tagOfString "Java"
def scriptKaithi : Nat := tagOfString "Kthi"
def scriptMeeteiMayek : Nat := tagOfString "Mtei"
def scriptTaiTham : Nat := tagOfString "Lana"
def scriptTaiViet : Nat := tagOfString "Tavt"
def scriptBatak : Nat := tagOfString "Batk"
def scriptBrahmi : Nat := tagOfString "Brah"
def scriptMandaic : Nat := tagOfString "Mand"
def scriptChakma : Nat := tagOfString "Cakm"
def scriptMiao : Nat := tagOfString "Plrd"
def scriptSharada : Nat := tagOfString "Shrd"
def scriptTakri : Nat := tagOfString "Takr"
def scriptDuployan : Nat := tagOfString "Dupl"
def scriptGrantha : Nat := tagOfString "Gran"
def scriptKhojki : Nat := tagOfString "Khoj"
def scriptKhudawadi : Nat := tagOfString "Sind"
def scriptMahajani : Nat := tagOfString "Mahj"
def scriptManichaean : Nat := tagOfString "Mani"
def scriptModi : Nat := tagOfString "Modi"
def scriptPahawhHmong : Nat := tagOfString "Hmng"
def scriptPsalterPahlavi : Nat := tagOfString "Phlp"
def scriptSiddham : Nat := tagOfString "Sidd"
def scriptTirhuta : Nat := tagOfString "Tirh"
def scriptAhom : Nat := tagOfString "Ahom"
def scriptMultani : Nat := tagOfString "Mult"
def scriptAdlam : Nat := tagOfString "Adlm"
def scriptBhaiksuki : Nat := tagOfString "Bhks"
def scriptMarchen : Nat := tagOfString "Marc"
def scriptNewa : Nat := tagOfString "Newa"
def scriptMasaramGondi : Nat := tagOfString "Gonm"
def scriptSoyombo : Nat := tagOfString "Soyo"
def scriptZanabazarSquare : Nat := tagOfString "Zanb"
def scriptDogra : Nat := tagOfString "Dogr"
def scriptGunjalaGondi : Nat := tagOfString "Gong"
def scriptHanifiRohingya : Nat := tagOfString "Rohg"
def scriptMakasar : Nat := tagOfString "Maka"
def scriptMedefaidrin : Nat := tagOfString "Medf"
def scriptOldSogdian : Nat := tagOfString "Sogo"
def scriptSogdian : Nat := tagOfString "Sogd"
def scriptElymaic : Nat := tagOfString "Elym"
def scriptNandinagari : Nat := tagOfString "Nand"
def scriptNyiakengPuachueHmong : Nat := tagOfString "Hmnp"
def scriptWancho : Nat := tagOfString "Wcho"
def scriptChorasmian : Nat := tagOfString "Chrs"
def scriptDivesAkuru : Nat := tagOfString "Diak"

/-- The scripts of the Indic-family case of the dispatch switch. -/
def indicScripts : List Nat :=
  [scriptBengali, scriptDevanagari, scriptGujarati, scriptGurmukhi, scriptKannada,
    scriptMalayalam, scriptOriya, scriptTamil, scriptTelugu, scriptSinhala]

/-- The scripts of the Universal-Shaping-Engine case of the dispatch
switch. -/
def useScripts : List Nat :=
  [scriptTibetan, scriptMongolian, scriptBuhid, scriptHanunoo, scriptTagalog,
    scriptTagbanwa, scriptLimbu, scriptTaiLe, scriptBuginese, scriptKharoshthi,
    scriptSylotiNagri, scriptTifinagh, scriptBalinese, scriptNko, scriptPhagsPa,
    scriptCham, scriptKayahLi, scriptLepcha, scriptRejang, scriptSaurashtra,
    scriptSundanese, scriptEgyptianHieroglyphs, scriptJavanese, scriptKaithi,
    scriptMeeteiMayek, scriptTaiTham, scriptTaiViet, scriptBatak,
    scriptBrahmi, scriptMandaic, scriptChakma, scriptMiao, scriptSharada,
    scriptTakri, scriptDuployan, scriptGrantha, scriptKhojki, scriptKhudawadi,
    scriptMahajani, scriptManichaean, scriptModi, scriptPahawhHmong,
    scriptPsalterPahlavi, scriptSiddham, scriptTirhuta, scriptAhom, scriptMultani,
    scriptAdlam, scriptBhaiksuki, scriptMarchen, scriptNewa, scriptMasaramGondi,
    scriptSoyombo, scriptZanabazarSquare, scriptDogra, scriptGunjalaGondi,
    scriptHanifiRohingya, scriptMakasar, scriptMedefaidrin, scriptOldSogdian,
    scriptSogdian, scriptElymaic, scriptNandinagari, scriptNyiakengPuachueHmong,
    scriptWancho, scriptChorasmian, scriptDivesAkuru]

/-- Text direction; the dispatch only consults horizontality. -/
inductive Direction where
  | ltr
  | rtl
  | ttb
  | btt
  deriving DecidableEq, Repr

def Direction.isHorizontal : Direction → Bool
  | .ltr => true
  | .rtl => true
  | _ => false

/-- Quantification over the four directions is decidable by checking
each one. -/
instance forallDirectionDecidable (p : Direction → Prop) [DecidablePred p] :
    Decidable (∀ d, p d) :=
  decidable_of_iff (p .ltr ∧ p .rtl ∧ p .ttb ∧ p .btt)
    ⟨fun h d =>
        match d with
        | .ltr => h.1
        | .rtl => h.2.1
        | .ttb => h.2.2.1
        | .btt => h.2.2.2,
      fun h => ⟨h .ltr, h .rtl, h .ttb, h .btt⟩⟩

/-- The shaper variants the dispatch can select (`generic` is the Go
`complexShapedDefault{}` generic/default shaper). -/
inductive Shaper where
  | generic
  | arabic
  | thai
  | hangul
  | hebrew
  | use
  | indic
  | khmer
  | myanmar
  | myanmarZawgyi
  deriving DecidableEq, Repr

/-- `hb_ot_shape_complex_categorize`: the shaper dispatch, a function of
the script, the chosen OpenType script tag (`chosen_script[0]`) and the
direction, embedded case by case from the source switch. -/
def hb_ot_shape_complex_categorize (script chosenScript : Nat) (dir : Direction) : Shaper :=
  if script = scriptArabic ∨ script = scriptSyriac then
    if (chosenScript ≠ tagDFLT ∨ script = scriptArabic) ∧ dir.isHorizontal then .arabic
    else .generic
  else if script = scriptThai ∨ script = scriptLao then .thai
  else if script = scriptHangul then .hangul
  else if script = scriptHebrew then .hebrew
  else if script ∈ indicScripts then
    if chosenScript = tagDFLT ∨ chosenScript = tagLatn then .generic
    else if chosenScript &&& 0x000000FF = 51 then .use
    else .indic
  else if script = scriptKhmer then .khmer
  else if script = scriptMyanmar then
    if chosenScript = tagDFLT ∨ chosenScript = tagLatn ∨ chosenScript = tagMymr then .generic
    else .myanmar
  else if script = scriptMyanmarZawgyi then .myanmarZawgyi
  else if script ∈ useScripts then
    if chosenScript = tagDFLT ∨ chosenScript = tagLatn then .generic
    else .use
  else .generic

end Opentype

/-!
## Theorems

First a toolkit of lemmas about the canonical finite-map
representation of `Pattern`, then the claims.
-/

namespace Fontconfig

theorem find_set (p : Pattern) (o : Object) (l : valueList) (o' : Object) :
    Pattern.find (Pattern.set p o l) o' = if o' = o then some l else Pattern.find p o' := by
  induction p with
  | nil =>
    simp only [Pattern.set, Pattern.find]
    by_cases h : o' = o
    · simp [h]
    · rw [if_neg h, if_neg fun hc : o = o' => h hc.symm]
  | cons e t ih =>
    simp only [Pattern.set]
    by_cases h1 : o < e.1
    · rw [if_pos h1]
      simp only [Pattern.find]
      by_cases h : o' = o
      · rw [if_pos h, if_pos h.symm]
      · rw [if_neg h, if_neg fun hc : o = o' => h hc.symm]
    · rw [if_neg h1]
      by_cases h2 : e.1 = o
      · rw [if_pos h2]
        simp only [Pattern.find]
        by_cases h : o' = o
        · rw [if_pos h, if_pos h.symm]
        · rw [if_neg h, if_neg fun hc : o = o' => h hc.symm,
            if_neg fun hc : e.1 = o' => h (hc ▸ h2 : o' = o)]
      · rw [if_neg h2]
        simp only [Pattern.find, ih]
        by_cases h : e.1 = o'
        · rw [if_pos h, if_pos h, if_neg fun hc : o' = o => h2 (h ▸ hc : e.1 = o)]
        · rw [if_neg h, if_neg h]

theorem find_eq_none_of_keys (p : Pattern) (o : Object) (h : ∀ x ∈ p, x.1 ≠ o) :
    Pattern.find p o = none := by
  induction p with
  | nil => rfl
  | cons e t ih =>
    simp only [Pattern.find, if_neg (h e (List.mem_cons_self e t))]
    exact ih fun x hx => h x (List.mem_cons_of_mem e hx)

theorem mem_of_find (p : Pattern) (o : Object) (l : valueList)
    (h : Pattern.find p o = some l) : (o, l) ∈ p := by
  induction p with
  | nil => simp [Pattern.find] at h
  | cons e t ih =>
    simp only [Pattern.find] at h
    by_cases h1 : e.1 = o
    · rw [if_pos h1] at h
      have h2 : e.2 = l := Option.some_injective _ h
      have : (o, l) = e := by
        calc (o, l) = (e.1, e.2) := by rw [h1, h2]
          _ = e := rfl
      rw [this]
      exact List.mem_cons_self e t
    · rw [if_neg h1] at h
      exact List.mem_cons_of_mem e (ih h)

theorem wf_cons_iff (e : Nat × valueList) (t : Pattern) :
    Pattern.wf (e :: t) ↔ (∀ x ∈ t, e.1 < x.1) ∧ Pattern.wf t := by
  exact List.pairwise_cons

theorem find_erase (p : Pattern) (hw : Pattern.wf p) (o o' : Object) :
    Pattern.find (Pattern.erase p o) o' = if o' = o then none else Pattern.find p o' := by
  induction p with
  | nil =>
    simp only [Pattern.erase, Pattern.find]
    by_cases h : o' = o
    · rw [if_pos h]
    · rw [if_neg h]
  | cons e t ih =>
    have hlt : ∀ x ∈ t, e.1 < x.1 := ((wf_cons_iff e t).mp hw).1
    have hw' : Pattern.wf t := ((wf_cons_iff e t).mp hw).2
    simp only [Pattern.erase]
    by_cases h1 : e.1 = o
    · rw [if_pos h1]
      by_cases h : o' = o
      · rw [if_pos h, h,
          find_eq_none_of_keys t o fun x hx => Nat.ne_of_gt (h1 ▸ hlt x hx)]
      · rw [if_neg h]
        simp only [Pattern.find]
        rw [if_neg fun hc : e.1 = o' => h (hc ▸ h1 : o' = o)]
    · rw [if_neg h1]
      simp only [Pattern.find, ih hw']
      by_cases h : o' = o
      · rw [if_pos h, if_pos h, if_neg fun hc : e.1 = o' => h1 (h ▸ hc : e.1 = o)]
      · rw [if_neg h, if_neg h]

theorem mem_set (p : Pattern) (o : Object) (l : valueList) (x : Nat × valueList)
    (h : x ∈ Pattern.set p o l) : x = (o, l) ∨ x ∈ p := by
  induction p with
  | nil =>
    simp only [Pattern.set] at h
    rcases List.mem_cons.mp h with h | h
    · left; exact h
    · cases h
  | cons e t ih =>
    simp only [Pattern.set] at h
    by_cases h1 : o < e.1
    · rw [if_pos h1] at h
      rcases List.mem_cons.mp h with h | h
      · left; exact h
      · right; exact h
    · rw [if_neg h1] at h
      by_cases h2 : e.1 = o
      · rw [if_pos h2] at h
        rcases List.mem_cons.mp h with h | h
        · left; exact h
        · right; exact List.mem_cons_of_mem e h
      · rw [if_neg h2] at h
        rcases List.mem_cons.mp h with h | h
        · right; rw [h]; exact List.mem_cons_self e t
        · rcases ih h with h' | h'
          · left; exact h'
          · right; exact List.mem_cons_of_mem e h'

theorem wf_set (p : Pattern) (hw : Pattern.wf p) (o : Object) (l : valueList) :
    Pattern.wf (Pattern.set p o l) := by
  induction p with
  | nil =>
    simp only [Pattern.set]
    exact List.pairwise_singleton _ _
  | cons e t ih =>
    have hlt : ∀ x ∈ t, e.1 < x.1 := ((wf_cons_iff e t).mp hw).1
    have hw' : Pattern.wf t := ((wf_cons_iff e t).mp hw).2
    simp only [Pattern.set]
    by_cases h1 : o < e.1
    · rw [if_pos h1]
      refine (wf_cons_iff _ _).mpr ⟨?_, hw⟩
      intro x hx
      rcases List.mem_cons.mp hx with h | h
      · rw [h]; exact h1
      · exact Nat.lt_trans h1 (hlt x h)
    · rw [if_neg h1]
      by_cases h2 : e.1 = o
      · rw [if_pos h2]
        refine (wf_cons_iff _ _).mpr ⟨?_, hw'⟩
        intro x hx
        exact h2 ▸ hlt x hx
      · rw [if_neg h2]
        refine (wf_cons_iff _ _).mpr ⟨?_, ih hw'⟩
        intro x hx
        rcases mem_set t o l x hx with h | h
        · rw [h]
          exact Nat.lt_of_le_of_ne (Nat.le_of_not_lt h1) h2
        · exact hlt x h

theorem mem_erase (p : Pattern) (o : Object) (x : Nat × valueList)
    (h : x ∈ Pattern.erase p o) : x ∈ p := by
  induction p with
  | nil => cases h
  | cons e t ih =>
    simp only [Pattern.erase] at h
    by_cases h1 : e.1 = o
    · rw [if_pos h1] at h
      exact List.mem_cons_of_mem e h
    · rw [if_neg h1] at h
      rcases List.mem_cons.mp h with h | h
      · rw [h]; exact List.mem_cons_self e t
      · exact List.mem_cons_of_mem e (ih h)

theorem wf_erase (p : Pattern) (hw : Pattern.wf p) (o : Object) :
    Pattern.wf (Pattern.erase p o) := by
  induction p with
  | nil => exact hw
  | cons e t ih =>
    have hlt : ∀ x ∈ t, e.1 < x.1 := ((wf_cons_iff e t).mp hw).1
    have hw' : Pattern.wf t := ((wf_cons_iff e t).mp hw).2
    simp only [Pattern.erase]
    by_cases h1 : e.1 = o
    · rw [if_pos h1]; exact hw'
    · rw [if_neg h1]
      exact (wf_cons_iff _ _).mpr
        ⟨fun x hx => hlt x (mem_erase t o x hx), ih hw'⟩

theorem set_find_self (p : Pattern) (hw : Pattern.wf p) (o : Object) (l : valueList)
    (h : Pattern.find p o = some l) : Pattern.set p o l = p := by
  induction p with
  | nil => simp [Pattern.find] at h
  | cons e t ih =>
    have hlt : ∀ x ∈ t, e.1 < x.1 := ((wf_cons_iff e t).mp hw).1
    have hw' : Pattern.wf t := ((wf_cons_iff e t).mp hw).2
    simp only [Pattern.find] at h
    simp only [Pattern.set]
    by_cases h1 : e.1 = o
    · rw [if_pos h1] at h
      have h2 : e.2 = l := Option.some_injective _ h
      rw [if_neg (h1 ▸ Nat.lt_irrefl o : ¬ o < e.1), if_pos h1]
      have : (o, l) = e := by
        calc (o, l) = (e.1, e.2) := by rw [h1, h2]
          _ = e := rfl
      rw [this]
    · rw [if_neg h1] at h
      have hkey : e.1 < o := hlt (o, l) (mem_of_find t o l h)
      rw [if_neg (Nat.not_lt_of_gt hkey), if_neg h1, ih hw' h]

theorem set_eq_cons_of_lt (p : Pattern) (o : Object) (l : valueList)
    (h : ∀ x ∈ p, o < x.1) : Pattern.set p o l = (o, l) :: p := by
  cases p with
  | nil => rfl
  | cons e t =>
    simp only [Pattern.set]
    rw [if_pos (h e (List.mem_cons_self e t))]

theorem erase_eq_of_keys (p : Pattern) (o : Object) (h : ∀ x ∈ p, x.1 ≠ o) :
    Pattern.erase p o = p := by
  induction p with
  | nil => rfl
  | cons e t ih =>
    simp only [Pattern.erase, if_neg (h e (List.mem_cons_self e t))]
    rw [ih fun x hx => h x (List.mem_cons_of_mem e hx)]

theorem set_erase (p : Pattern) (hw : Pattern.wf p) (o : Object) (l : valueList) :
    Pattern.set (Pattern.erase p o) o l = Pattern.set p o l := by
  induction p with
  | nil => rfl
  | cons e t ih =>
    have hlt : ∀ x ∈ t, e.1 < x.1 := ((wf_cons_iff e t).mp hw).1
    have hw' : Pattern.wf t := ((wf_cons_iff e t).mp hw).2
    simp only [Pattern.erase]
    by_cases h1 : e.1 = o
    · rw [if_pos h1, set_eq_cons_of_lt t o l fun x hx => h1 ▸ hlt x hx]
      simp only [Pattern.set]
      rw [if_neg (h1 ▸ Nat.lt_irrefl o : ¬ o < e.1), if_pos h1]
    · rw [if_neg h1]
      simp only [Pattern.set]
      by_cases h2 : o < e.1
      · rw [if_pos h2, if_pos h2,
          erase_eq_of_keys t o fun x hx => Nat.ne_of_gt (Nat.lt_trans h2 (hlt x hx))]
      · rw [if_neg h2, if_neg h2, if_neg h1, if_neg h1, ih hw']

theorem pattern_ext (p q : Pattern) (hwp : Pattern.wf p) (hwq : Pattern.wf q)
    (h : ∀ o, Pattern.find p o = Pattern.find q o) : p = q := by
  induction p generalizing q with
  | nil =>
    cases q with
    | nil => rfl
    | cons f s =>
      have h1 := h f.1
      simp only [Pattern.find, if_pos rfl] at h1
      cases h1
  | cons e t ih =>
    cases q with
    | nil =>
      have h1 := h e.1
      simp only [Pattern.find, if_pos rfl] at h1
      cases h1
    | cons f s =>
      have hlt : ∀ x ∈ t, e.1 < x.1 := ((wf_cons_iff e t).mp hwp).1
      have hwt : Pattern.wf t := ((wf_cons_iff e t).mp hwp).2
      have hls : ∀ x ∈ s, f.1 < x.1 := ((wf_cons_iff f s).mp hwq).1
      have hws : Pattern.wf s := ((wf_cons_iff f s).mp hwq).2
      have hkey : e.1 = f.1 := by
        by_contra hne
        rcases Nat.lt_or_ge e.1 f.1 with hc | hc
        · have h1 := h e.1
          simp only [Pattern.find, if_pos rfl] at h1
          rw [if_neg (Nat.ne_of_gt hc : ¬ f.1 = e.1),
            find_eq_none_of_keys s e.1
              fun x hx => Nat.ne_of_gt (Nat.lt_trans hc (hls x hx))] at h1
          cases h1
        · have hc' : f.1 < e.1 := Nat.lt_of_le_of_ne hc fun hc2 => hne hc2.symm
          have h1 := h f.1
          simp only [Pattern.find, if_pos rfl] at h1
          rw [if_neg (Nat.ne_of_gt hc' : ¬ e.1 = f.1),
            find_eq_none_of_keys t f.1
              fun x hx => Nat.ne_of_gt (Nat.lt_trans hc' (hlt x hx))] at h1
          cases h1
      have hval : e.2 = f.2 := by
        have h1 := h e.1
        simp only [Pattern.find, if_pos rfl, if_pos hkey.symm] at h1
        exact Option.some_injective _ h1
      have hef : e = f := by
        calc e = (e.1, e.2) := rfl
          _ = (f.1, f.2) := by rw [hkey, hval]
          _ = f := rfl
      rw [hef]
      congr 1
      refine ih s hwt hws fun o => ?_
      by_cases ho : o = e.1
      · rw [ho, find_eq_none_of_keys t e.1 fun x hx => Nat.ne_of_gt (hlt x hx),
          find_eq_none_of_keys s e.1
            fun x hx => Nat.ne_of_gt (hkey ▸ hls x hx)]
      · have h1 := h o
        simp only [Pattern.find, if_neg fun hc : e.1 = o => ho hc.symm,
          if_neg fun hc : f.1 = o => ho (hkey ▸ hc.symm : o = e.1)] at h1
        exact h1

end Fontconfig

namespace Fontconfig

theorem addWithBinding_eq (p : Pattern) (o : Object) (v : Value) (b : Binding) (m : Bool) :
    Pattern.addWithBinding p o v b m =
      if hasValidType o v then
        Pattern.set p o
          (if m then Pattern.getVals p o ++ [⟨v, b⟩] else ⟨v, b⟩ :: Pattern.getVals p o)
      else p := by
  simp only [Pattern.addWithBinding, Pattern.AddList, List.all_cons, List.all_nil,
    Bool.and_true, List.singleton_append]

theorem getVals_eq (p : Pattern) (o : Object) :
    Pattern.getVals p o = (Pattern.find p o).getD [] := rfl

theorem wf_AddList (p : Pattern) (hw : Pattern.wf p) (o : Object) (l : valueList) (m : Bool) :
    Pattern.wf (Pattern.AddList p o l m) := by
  unfold Pattern.AddList
  split
  · exact wf_set p hw o _
  · exact hw

theorem wf_addWithBinding (p : Pattern) (hw : Pattern.wf p) (o : Object) (v : Value)
    (b : Binding) (m : Bool) : Pattern.wf (Pattern.addWithBinding p o v b m) :=
  wf_AddList p hw o _ m

/-- C5: for every pattern `p`, object `o` and value `v` whose kind is
not admissible for `o`, inserting `v` through `Add` (any append mode) or
through `AddList` (any list containing `v`, any append mode) is a total
no-op: no panic, no error value, and the pattern is returned unchanged
(in particular unchanged with respect to `v`). -/
theorem add_type_mismatch_noop (p : Pattern) (o : Object) (v : Value)
    (h : hasValidType o v = false) :
    (∀ m, Pattern.Add p o v m = p) ∧
      (∀ l m, (∃ e ∈ l, e.value = v) → Pattern.AddList p o l m = p) := by
  constructor
  · intro m
    simp only [Pattern.Add, addWithBinding_eq, h, Bool.false_eq_true, if_false]
  · intro l m he
    rcases he with ⟨e, hel, hev⟩
    unfold Pattern.AddList
    rw [if_neg]
    simp only [List.all_eq_true, not_forall]
    exact ⟨e, hel, by simp [hev, h]⟩

theorem add_type_mismatch_noop_witness :
    hasValidType FAMILY (.vInt 3) = false ∧
      ((∀ m, Pattern.Add NewPattern FAMILY (.vInt 3) m = NewPattern) ∧
        (∀ l m, (∃ e ∈ l, e.value = .vInt 3) →
          Pattern.AddList NewPattern FAMILY l m = NewPattern)) :=
  ⟨by decide, add_type_mismatch_noop NewPattern FAMILY (.vInt 3) (by decide)⟩

/-- C6 (amended): value lookup is total and returns distinguished
results — `ResultNoMatch` when the object is absent, `ResultNoId` when
the index is out of range, `ResultMatch` with the value otherwise — and
`GetAtString` additionally distinguishes a found-but-wrong-type value
(`ResultTypeMismatch`).  The `(value, bool)` typed accessors
(exemplified by `GetBool`) return `false` both when the object is
absent and when the first value has the wrong type, so those two
outcomes are *not* distinguishable from such an accessor's result
alone. -/
theorem lookup_distinguished_results (p : Pattern) (o : Object) (id : Nat) :
    (Pattern.find p o = none → Pattern.GetAt p o id = (.vNull, .noMatch)) ∧
      (∀ l, Pattern.find p o = some l → l.length ≤ id →
        Pattern.GetAt p o id = (.vNull, .noId)) ∧
      (∀ l e, Pattern.find p o = some l → l[id]? = some e →
        Pattern.GetAt p o id = (e.value, .matched)) ∧
      (∀ l e, Pattern.find p o = some l → l[id]? = some e →
        (∀ s, e.value ≠ .vString s) → Pattern.GetAtString p o id = ("", .typeMismatch)) ∧
      (Pattern.find p o = none → Pattern.GetBool p o = (0, false)) ∧
      (∀ l e, Pattern.find p o = some l → l[0]? = some e →
        (∀ b, e.value ≠ .vBool b) → Pattern.GetBool p o = (0, false)) := by
  refine ⟨?_, ?_, ?_, ?_, ?_, ?_⟩
  · intro h
    simp [Pattern.GetAt, h]
  · intro l h hlen
    have : l[id]? = none := by
      rw [List.getElem?_eq_none_iff]
      exact hlen
    simp [Pattern.GetAt, h, this]
  · intro l e h hget
    simp [Pattern.GetAt, h, hget]
  · intro l e h hget hns
    have hat : Pattern.GetAt p o id = (e.value, .matched) := by
      simp [Pattern.GetAt, h, hget]
    simp only [Pattern.GetAtString, hat]
    cases hv : e.value with
    | vString s => exact absurd hv (hns s)
    | vNull => simp
    | vBool b => simp
    | vInt i => simp
    | vFloat q => simp
    | vMatrix a b c d => simp
    | vCharset cs => simp
    | vRange lo hi => simp
    | vLangset ls => simp
  · intro h
    simp [Pattern.GetBool, Pattern.GetAt, h]
  · intro l e h hget hnb
    have hat : Pattern.GetAt p o 0 = (e.value, .matched) := by
      simp [Pattern.GetAt, h, hget]
    simp only [Pattern.GetBool, hat]
    cases hv : e.value with
    | vBool b => exact absurd hv (hnb b)
    | vNull => simp
    | vString s => simp
    | vInt i => simp
    | vFloat q => simp
    | vMatrix a b c d => simp
    | vCharset cs => simp
    | vRange lo hi => simp
    | vLangset ls => simp

theorem lookup_distinguished_results_witness :
    Pattern.find NewPattern FAMILY = none ∧
      Pattern.GetAt NewPattern FAMILY 0 = (.vNull, .noMatch) :=
  ⟨by decide, (lookup_distinguished_results NewPattern FAMILY 0).1 (by decide)⟩

/-- C6 counterexample: the claim says the `(value, found)` typed
accessors make "not found" and "found but wrong type" distinguishable;
but `GetBool` returns the identical `(0, false)` on a pattern holding an
integer weight (wrong type) and on the empty pattern (not found), even
though `GetAt` shows the two situations differ. -/
theorem getBool_collapses_outcomes :
    Pattern.GetBool (Pattern.AddInteger NewPattern WEIGHT 80) WEIGHT =
        Pattern.GetBool NewPattern WEIGHT ∧
      Pattern.GetAt (Pattern.AddInteger NewPattern WEIGHT 80) WEIGHT 0 ≠
        Pattern.GetAt NewPattern WEIGHT 0 := by decide

/-- C4 (amended): the typing invariant (every stored value admissible
for its object) is preserved by the checked insertion entry points —
`AddList`, `addWithBinding`, `Add`, and `Del` — which check
admissibility before storing. -/
theorem wellTyped_preserved_by_checked_entry_points (p : Pattern) (h : WellTyped p) :
    (∀ o l m, WellTyped (Pattern.AddList p o l m)) ∧
      (∀ o v b m, WellTyped (Pattern.addWithBinding p o v b m)) ∧
      (∀ o v m, WellTyped (Pattern.Add p o v m)) ∧
      (∀ o, WellTyped (Pattern.Del p o)) := by
  have hAddList : ∀ o l m, WellTyped (Pattern.AddList p o l m) := by
    intro o l m
    unfold Pattern.AddList
    split
    case isTrue hall =>
      intro x hx e he
      rcases mem_set p o _ x hx with hx1 | hx1
      · rw [hx1] at he ⊢
        have hold : ∀ e ∈ Pattern.getVals p o, hasValidType o e.value = true := by
          intro e' he'
          rw [getVals_eq] at he'
          cases hf : Pattern.find p o with
          | none => rw [hf] at he'; cases he'
          | some lo =>
            rw [hf] at he'
            exact h (o, lo) (mem_of_find p o lo hf) e' he'
        have hnew : ∀ e ∈ l, hasValidType o e.value = true := by
          intro e' he'
          exact List.all_eq_true.mp hall e' he'
        rcases m with _ | _
        · simp only at he
          rcases List.mem_append.mp he with hc | hc
          · exact hnew e hc
          · exact hold e hc
        · simp only at he
          rcases List.mem_append.mp he with hc | hc
          · exact hold e hc
          · exact hnew e hc
      · exact h x hx1 e he
    case isFalse => exact h
  refine ⟨hAddList, fun o v b m => hAddList o _ m, fun o v m => hAddList o _ m, ?_⟩
  intro o x hx e he
  exact h x (mem_erase p o x hx) e he

theorem wellTyped_preserved_witness :
    WellTyped NewPattern ∧
      WellTyped (Pattern.AddList NewPattern FAMILY [⟨.vString "x", .strong⟩] true) :=
  ⟨by decide,
    (wellTyped_preserved_by_checked_entry_points NewPattern (by decide)).1
      FAMILY [⟨.vString "x", .strong⟩] true⟩

/-- C4 counterexample: `addWithTable` is a mutation entry point that
inserts values with no admissibility check — inserting an integer under
`FAMILY` (a string-only object) through it yields a pattern violating
the typing invariant, so the invariant is not enforced at every
mutation entry point. -/
theorem addWithTable_violates_typing :
    ¬ WellTyped (Pattern.addWithTable NewPattern FAMILY [⟨.vInt 0, .strong⟩] true) := by
  decide

/-- C9: when parsing the primary configuration fails, the caller still
receives a usable configuration and no error: `initLoadOwnConfig`
substitutes the hard-coded built-in fallback configuration instead of
propagating the failure. -/
theorem primary_parse_failure_falls_back (env : LoadEnv) (h : env.fails "" = true) :
    initLoadOwnConfig env = (some initFallbackConfig.1, none) ∧
      initFallbackConfig.2 = none := by
  constructor
  · unfold initLoadOwnConfig parseConfig
    rw [h]
    rfl
  · rfl

theorem primary_parse_failure_falls_back_witness :
    LoadEnv.fails ⟨fun _ => true⟩ "" = true ∧
      (initLoadOwnConfig ⟨fun _ => true⟩ = (some initFallbackConfig.1, none) ∧
        initFallbackConfig.2 = none) :=
  ⟨rfl, primary_parse_failure_falls_back ⟨fun _ => true⟩ rfl⟩

end Fontconfig

namespace Opentype

/-- C3: on the syllable `Ra, Asat, Halant, Consonant, VowelBelow` the
claim (and the upstream reference the file is ported from) requires the
repha group to move to immediately after the base consonant, giving
category order `C, Ra, As, H, VBlw`.  The code instead leaves the glyph
order completely unchanged: `initialReorderingConsonantSyllable`
overwrites its `end` parameter with `start + 3` (the repha prefix) and
hands that bound to the final sort, so only the three equal-tagged
repha glyphs are ever sorted.  The unsafe-to-break marking of the whole
cluster span does happen as claimed. -/
theorem myanmar_repha_not_moved :
    (myanmarShapeSingleSyllable myanmarRephaExample).map GlyphInfo.auxCategory =
        [OT_Ra, OT_As, OT_H, OT_C, OT_VBlw] ∧
      (myanmarShapeSingleSyllable myanmarRephaExample).map GlyphInfo.auxCategory ≠
        [OT_C, OT_Ra, OT_As, OT_H, OT_VBlw] ∧
      (myanmarShapeSingleSyllable myanmarRephaExample).all GlyphInfo.unsafeToBreak = true := by
  decide

/-- C8 counterexample: Thai has a dedicated complex shaper, yet with
the chosen OpenType script tag resolved to the generic `DFLT` tag the
dispatch still selects the Thai shaper, not the generic one — the
claimed fallback does not hold for every script with a dedicated
shaper. -/
theorem thai_dflt_selects_thai_shaper :
    hb_ot_shape_complex_categorize scriptThai tagDFLT .ltr = .thai ∧
      Shaper.thai ≠ Shaper.generic := by decide

/-- C8 (amended): for the scripts whose dispatch case consults the
chosen tag — the Indic family, Myanmar and the Universal Shaping Engine
family — a chosen tag of `DFLT` or `latn` makes the dispatch select the
generic/default shaper, whatever the direction; dispatch is a total
function (every `(script, tag, direction)` input selects exactly one
shaper variant, by construction of `hb_ot_shape_complex_categorize`).
Thai, Lao, Hangul, Hebrew, Khmer, Zawgyi-Myanmar and horizontal Arabic
keep their dedicated shaper regardless of the chosen tag. -/
theorem tag_sensitive_scripts_fall_back_to_generic :
    ∀ s ∈ indicScripts ++ [scriptMyanmar] ++ useScripts,
      ∀ t ∈ [tagDFLT, tagLatn], ∀ d,
        hb_ot_shape_complex_categorize s t d = .generic := by
  decide

theorem tag_sensitive_scripts_witness :
    scriptBengali ∈ indicScripts ++ [scriptMyanmar] ++ useScripts ∧
      tagDFLT ∈ [tagDFLT, tagLatn] ∧
      hb_ot_shape_complex_categorize scriptBengali tagDFLT .ltr = .generic :=
  ⟨by decide, by decide,
    tag_sensitive_scripts_fall_back_to_generic scriptBengali (by decide) tagDFLT
      (by decide) .ltr⟩

end Opentype

namespace Graphite

/-- C10: when a language record matches the space-normalized language
code, `TableSill.GetFeatures` returns the matched record's resolved
feature values: a list sorted by nondecreasing feature id in which
every entry stems from a feature found in the font's feature table
(carrying that feature's flags and the record's setting value). -/
theorem getFeatures_sorted_and_from_table (si : TableSill) (features : TableFeat)
    (langname : Tag) (r : languageRecord)
    (h : si.find? (fun rr => rr.langcode == spaceToZero langname) = some r) :
    List.Pairwise (fun a b => a.Id ≤ b.Id) (TableSill.GetFeatures si langname features) ∧
      ∀ fv ∈ TableSill.GetFeatures si langname features,
        ∃ feat ∈ features, ∃ set ∈ r.settings,
          feat.id = set.FeatureId ∧ fv.Id = zeroToSpace set.FeatureId ∧
            fv.Flags = feat.flags ∧ fv.Value = set.Value := by
  have hout : TableSill.GetFeatures si langname features = r.applyValues features := by
    unfold TableSill.GetFeatures
    rw [h]
  rw [hout]
  constructor
  · unfold languageRecord.applyValues sortByID
    haveI : IsTotal FeatureValue (fun a b => a.Id ≤ b.Id) :=
      ⟨fun a b => Nat.le_total a.Id b.Id⟩
    haveI : IsTrans FeatureValue (fun a b => a.Id ≤ b.Id) :=
      ⟨fun _ _ _ hab hbc => Nat.le_trans hab hbc⟩
    exact List.sorted_insertionSort _ _
  · intro fv hfv
    unfold languageRecord.applyValues sortByID at hfv
    rw [(List.perm_insertionSort _ _).mem_iff] at hfv
    rcases List.mem_filterMap.mp hfv with ⟨set, hset, hmap⟩
    rcases Option.map_eq_some'.mp hmap with ⟨feat, hfind, hval⟩
    refine ⟨feat, ?_, set, hset, ?_, ?_, ?_, ?_⟩
    · exact List.mem_of_find?_eq_some hfind
    · have := List.find?_some hfind
      simpa using this
    · rw [← hval]
    · rw [← hval]
    · rw [← hval]

theorem getFeatures_sorted_witness :
    List.find? (fun rr => rr.langcode == spaceToZero 200)
        ([⟨[⟨100, 3⟩, ⟨5, 1⟩], 200⟩] : TableSill) = some ⟨[⟨100, 3⟩, ⟨5, 1⟩], 200⟩ ∧
      (List.Pairwise (fun a b => a.Id ≤ b.Id)
          (TableSill.GetFeatures [⟨[⟨100, 3⟩, ⟨5, 1⟩], 200⟩] 200 [⟨5, 7, 0⟩, ⟨100, 9, 0⟩]) ∧
        ∀ fv ∈ TableSill.GetFeatures [⟨[⟨100, 3⟩, ⟨5, 1⟩], 200⟩] 200 [⟨5, 7, 0⟩, ⟨100, 9, 0⟩],
          ∃ feat ∈ ([⟨5, 7, 0⟩, ⟨100, 9, 0⟩] : TableFeat),
            ∃ set ∈ ([⟨100, 3⟩, ⟨5, 1⟩] : List languageSetting),
              feat.id = set.FeatureId ∧ fv.Id = zeroToSpace set.FeatureId ∧
                fv.Flags = feat.flags ∧ fv.Value = set.Value) :=
  ⟨by decide,
    getFeatures_sorted_and_from_table [⟨[⟨100, 3⟩, ⟨5, 1⟩], 200⟩] [⟨5, 7, 0⟩, ⟨100, 9, 0⟩]
      200 ⟨[⟨100, 3⟩, ⟨5, 1⟩], 200⟩ (by decide)⟩

end Graphite

namespace Fontconfig

theorem natOfList_inj : ∀ {l1 l2 : List Nat}, natOfList l1 = natOfList l2 → l1 = l2 := by
  intro l1
  induction l1 with
  | nil =>
    intro l2 h
    cases l2 with
    | nil => rfl
    | cons b t2 => simp [natOfList] at h
  | cons a t1 ih =>
    intro l2 h
    cases l2 with
    | nil => simp [natOfList] at h
    | cons b t2 =>
      simp only [natOfList, List.foldr_cons, Nat.add_right_cancel_iff] at h
      have h2 := Nat.pair_eq_pair.mp h
      rw [h2.1, ih (by simpa [natOfList] using h2.2)]

theorem natOfInt_inj {i j : Int} (h : natOfInt i = natOfInt j) : i = j := by
  unfold natOfInt at h
  have h2 := Nat.pair_eq_pair.mp h
  have ha : i.natAbs = j.natAbs := h2.1
  have hf := h2.2
  by_cases hi : 0 ≤ i <;> by_cases hj : 0 ≤ j <;> simp [hi, hj] at hf <;> omega

theorem natOfRat_inj {q r : ℚ} (h : natOfRat q = natOfRat r) : q = r := by
  unfold natOfRat at h
  have h2 := Nat.pair_eq_pair.mp h
  exact Rat.ext (natOfInt_inj h2.1) h2.2

theorem char_toNat_inj {a b : Char} (h : a.toNat = b.toNat) : a = b :=
  Char.eq_of_val_eq (UInt32.ext h)

theorem natOfString_inj {s t : String} (h : natOfString s = natOfString t) : s = t := by
  unfold natOfString at h
  have h2 : s.data.map Char.toNat = t.data.map Char.toNat := natOfList_inj h
  have h3 : s.data = t.data :=
    List.map_injective_iff.mpr (fun _ _ hc => char_toNat_inj hc) h2
  cases s
  cases t
  exact congrArg String.mk h3

theorem natOfValue_inj : ∀ {v w : Value}, natOfValue v = natOfValue w → v = w := by
  intro v w h
  cases v <;> cases w <;> simp only [natOfValue, Nat.pair_eq_pair] at h <;>
    first
    | rfl
    | (exact absurd h.1 (by decide))
    | skip
  case vBool.vBool => rw [h.2]
  case vInt.vInt => rw [natOfInt_inj h.2]
  case vFloat.vFloat => rw [natOfRat_inj h.2]
  case vString.vString => rw [natOfString_inj h.2]
  case vMatrix.vMatrix =>
    rw [natOfRat_inj h.2.1, natOfRat_inj h.2.2.1, natOfRat_inj h.2.2.2.1,
      natOfRat_inj h.2.2.2.2]
  case vCharset.vCharset => rw [natOfList_inj h.2]
  case vRange.vRange =>
    rw [natOfRat_inj h.2.1, natOfRat_inj h.2.2]
  case vLangset.vLangset =>
    rw [List.map_injective_iff.mpr (fun _ _ hc => natOfString_inj hc) (natOfList_inj h.2)]

theorem natOfBinding_inj : ∀ (a b : Binding), natOfBinding a = natOfBinding b → a = b := by
  intro a b
  cases a <;> cases b <;> simp [natOfBinding]

theorem natOfElt_inj : ∀ {e f : valueElt}, natOfElt e = natOfElt f → e = f := by
  intro e f h
  unfold natOfElt at h
  have h2 := Nat.pair_eq_pair.mp h
  have hv : e.value = f.value := natOfValue_inj h2.1
  have hb : e.binding = f.binding := natOfBinding_inj e.binding f.binding h2.2
  cases e
  cases f
  simp only at hv hb
  rw [hv, hb]

theorem valueList_code_inj {l1 l2 : valueList}
    (h : natOfList (l1.map natOfElt) = natOfList (l2.map natOfElt)) : l1 = l2 :=
  List.map_injective_iff.mpr (fun _ _ hc => natOfElt_inj hc) (natOfList_inj h)

theorem hash_cons (e : Nat × valueList) (t : Pattern) :
    Pattern.Hash (e :: t) =
      (if e.2.isEmpty then []
        else enc16 e.1 ++ enc32 (valueListHash e.2).length ++ valueListHash e.2) ++
        Pattern.Hash t := by
  simp [Pattern.Hash]

theorem hash_canonical (p : Pattern) : Pattern.Hash p = Pattern.Hash (Pattern.canonical p) := by
  induction p with
  | nil => rfl
  | cons e t ih =>
    rw [hash_cons]
    unfold Pattern.canonical
    by_cases he : e.2.isEmpty
    · rw [if_pos he, List.filter_cons_of_neg (by simp [he]), List.nil_append]
      exact ih
    · rw [if_neg he, List.filter_cons_of_pos (by simp [eq_false_of_ne_true he]),
        hash_cons, if_neg he]
      unfold Pattern.canonical at ih
      rw [ih]

theorem hash_inj_on_canonical :
    ∀ (l1 l2 : Pattern), (∀ x ∈ l1, x.1 < 65536) → (∀ x ∈ l2, x.1 < 65536) →
      (∀ x ∈ l1, x.2 ≠ []) → (∀ x ∈ l2, x.2 ≠ []) →
      Pattern.Hash l1 = Pattern.Hash l2 → l1 = l2 := by
  intro l1
  induction l1 with
  | nil =>
    intro l2 _ hb2 _ hn2 h
    cases l2 with
    | nil => rfl
    | cons f s =>
      rw [hash_cons, if_neg (by simpa using hn2 f (List.mem_cons_self f s))] at h
      simp [Pattern.Hash, enc16, valueListHash] at h
  | cons e t ih =>
    intro l2 hb1 hb2 hn1 hn2 h
    cases l2 with
    | nil =>
      rw [hash_cons, if_neg (by simpa using hn1 e (List.mem_cons_self e t))] at h
      simp [Pattern.Hash, enc16, valueListHash] at h
    | cons f s =>
      rw [hash_cons, if_neg (by simpa using hn1 e (List.mem_cons_self e t)),
        hash_cons, if_neg (by simpa using hn2 f (List.mem_cons_self f s))] at h
      simp only [enc16, enc32, valueListHash, List.length_singleton, List.cons_append,
        List.nil_append, List.singleton_append, List.cons.injEq] at h
      have hkey : e.1 = f.1 := by
        have hb : e.1 < 65536 := hb1 e (List.mem_cons_self e t)
        have hb' : f.1 < 65536 := hb2 f (List.mem_cons_self f s)
        have h1 := h.1
        have h2 := h.2.1
        omega
      have hval : e.2 = f.2 := valueList_code_inj h.2.2.2.2.2.2.1
      have hef : e = f := by
        calc e = (e.1, e.2) := rfl
          _ = (f.1, f.2) := by rw [hkey, hval]
          _ = f := rfl
      rw [hef]
      congr 1
      exact ih s (fun x hx => hb1 x (List.mem_cons_of_mem e hx))
        (fun x hx => hb2 x (List.mem_cons_of_mem f hx))
        (fun x hx => hn1 x (List.mem_cons_of_mem e hx))
        (fun x hx => hn2 x (List.mem_cons_of_mem f hx))
        h.2.2.2.2.2.2.2

theorem canonical_wf (p : Pattern) (hw : Pattern.wf p) : Pattern.wf (Pattern.canonical p) :=
  List.Pairwise.filter _ hw

theorem find_canonical (p : Pattern) (hw : Pattern.wf p) (o : Object) :
    Pattern.find (Pattern.canonical p) o =
      (Pattern.find p o).bind fun l => if l.isEmpty then none else some l := by
  induction p with
  | nil => rfl
  | cons e t ih =>
    have hlt : ∀ x ∈ t, e.1 < x.1 := ((wf_cons_iff e t).mp hw).1
    have hw' : Pattern.wf t := ((wf_cons_iff e t).mp hw).2
    have ihc := ih hw'
    unfold Pattern.canonical at ihc ⊢
    by_cases he : e.2.isEmpty
    · rw [List.filter_cons_of_neg (by simp [he])]
      by_cases ho : e.1 = o
      · have hR : Pattern.find (e :: t) o = some e.2 := by
          simp [Pattern.find, ho]
        rw [hR, ihc,
          find_eq_none_of_keys t o fun x hx => Nat.ne_of_gt (ho ▸ hlt x hx)]
        simp [List.isEmpty_iff.mp he]
      · have hR : Pattern.find (e :: t) o = Pattern.find t o := by
          simp [Pattern.find, ho]
        rw [hR, ihc]
    · rw [List.filter_cons_of_pos (by simp [eq_false_of_ne_true he])]
      by_cases ho : e.1 = o
      · have hR : Pattern.find (e :: t) o = some e.2 := by
          simp [Pattern.find, ho]
        have hL : Pattern.find (e :: List.filter (fun x => !x.2.isEmpty) t) o = some e.2 := by
          simp [Pattern.find, ho]
        rw [List.isEmpty_iff] at he
        rw [hR, hL]
        simp [he]
      · have hR : Pattern.find (e :: t) o = Pattern.find t o := by
          simp [Pattern.find, ho]
        have hL : Pattern.find (e :: List.filter (fun x => !x.2.isEmpty) t) o =
            Pattern.find (List.filter (fun x => !x.2.isEmpty) t) o := by
          simp [Pattern.find, ho]
        rw [hR, hL, ihc]

theorem getVals_ne_nil_find (p : Pattern) (o : Object) (h : Pattern.getVals p o ≠ []) :
    Pattern.find p o = some (Pattern.getVals p o) := by
  rw [getVals_eq] at h ⊢
  cases hf : Pattern.find p o with
  | none => rw [hf] at h; simp at h
  | some l => rfl

theorem getVals_canonical (p : Pattern) (hw : Pattern.wf p) (o : Object) :
    Pattern.getVals (Pattern.canonical p) o = Pattern.getVals p o := by
  rw [getVals_eq, getVals_eq, find_canonical p hw o]
  cases hf : Pattern.find p o with
  | none => rfl
  | some l =>
    by_cases he : l.isEmpty
    · simp [he, List.isEmpty_iff.mp he]
    · rw [List.isEmpty_iff] at he
      simp [he]

theorem canonical_entries_nonempty (p : Pattern) (x : Nat × valueList)
    (hx : x ∈ Pattern.canonical p) : x.2 ≠ [] := by
  have := List.of_mem_filter hx
  simpa using this

theorem mem_canonical (p : Pattern) (x : Nat × valueList)
    (hx : x ∈ Pattern.canonical p) : x ∈ p :=
  List.mem_of_mem_filter hx

/-- C1: `Hash(P) = Hash(Q)` iff `P` and `Q` have identical canonical
content — every object maps to the same value list in the same
within-list order (an absent object and an object holding an empty
list are canonically the same, as the source's `canon` normalization
records); insertion order of distinct objects cannot influence either
side, since a pattern is a map hashed in sorted key order.  Objects are
Go `uint16`, whence the `< 65536` bounds. -/
theorem hash_eq_iff_canonical_content (p q : Pattern)
    (hwp : Pattern.wf p) (hwq : Pattern.wf q)
    (hbp : ∀ x ∈ p, x.1 < 65536) (hbq : ∀ x ∈ q, x.1 < 65536) :
    Pattern.Hash p = Pattern.Hash q ↔
      ∀ o, Pattern.getVals p o = Pattern.getVals q o := by
  constructor
  · intro h
    rw [hash_canonical p, hash_canonical q] at h
    have hcan : Pattern.canonical p = Pattern.canonical q :=
      hash_inj_on_canonical (Pattern.canonical p) (Pattern.canonical q)
        (fun x hx => hbp x (mem_canonical p x hx))
        (fun x hx => hbq x (mem_canonical q x hx))
        (canonical_entries_nonempty p) (canonical_entries_nonempty q) h
    intro o
    rw [← getVals_canonical p hwp o, ← getVals_canonical q hwq o, hcan]
  · intro h
    rw [hash_canonical p, hash_canonical q]
    have hcan : Pattern.canonical p = Pattern.canonical q := by
      refine pattern_ext (Pattern.canonical p) (Pattern.canonical q)
        (canonical_wf p hwp) (canonical_wf q hwq) fun o => ?_
      rw [find_canonical p hwp o, find_canonical q hwq o]
      have ho := h o
      rw [getVals_eq, getVals_eq] at ho
      cases hfp : Pattern.find p o with
      | none =>
        cases hfq : Pattern.find q o with
        | none => rfl
        | some lq =>
          rw [hfp, hfq] at ho
          simp only [Option.getD_none, Option.getD_some] at ho
          simp [← ho]
      | some lp =>
        cases hfq : Pattern.find q o with
        | none =>
          rw [hfp, hfq] at ho
          simp only [Option.getD_none, Option.getD_some] at ho
          simp [ho]
        | some lq =>
          rw [hfp, hfq] at ho
          simp only [Option.getD_some] at ho
          rw [ho]
    rw [hcan]

theorem hash_eq_iff_witness :
    (Pattern.wf patternAB ∧ Pattern.wf patternBA ∧
        (∀ x ∈ patternAB, x.1 < 65536) ∧ (∀ x ∈ patternBA, x.1 < 65536)) ∧
      (Pattern.Hash patternAB = Pattern.Hash patternBA ↔
        ∀ o, Pattern.getVals patternAB o = Pattern.getVals patternBA o) ∧
      Pattern.Hash patternAB = Pattern.Hash patternBA :=
  ⟨⟨by decide, by decide, by decide, by decide⟩,
    hash_eq_iff_canonical_content patternAB patternBA (by decide) (by decide)
      (by decide) (by decide),
    (hash_eq_iff_canonical_content patternAB patternBA (by decide) (by decide)
        (by decide) (by decide)).mpr
      fun o => by rw [show patternAB = patternBA from by decide]⟩

end Fontconfig

namespace Fontconfig

theorem find_erase_ne (p : Pattern) (o o' : Nat) (h : o' ≠ o) :
    Pattern.find (Pattern.erase p o) o' = Pattern.find p o' := by
  induction p with
  | nil => rfl
  | cons e t ih =>
    simp only [Pattern.erase, Pattern.find]
    by_cases h1 : e.1 = o
    · rw [if_pos h1, if_neg fun hc : e.1 = o' => h (hc ▸ h1 : o' = o)]
    · rw [if_neg h1]
      simp only [Pattern.find, ih]

theorem find_erase_self (p : Pattern) (hw : Pattern.wf p) (o : Nat) :
    Pattern.find (Pattern.erase p o) o = none := by
  rw [find_erase p hw o o, if_pos rfl]

theorem find_AddList_ne (p : Pattern) (o : Nat) (l : valueList) (m : Bool) (o' : Nat)
    (h : o' ≠ o) : Pattern.find (Pattern.AddList p o l m) o' = Pattern.find p o' := by
  unfold Pattern.AddList
  split
  · rw [find_set, if_neg h]
  · rfl

theorem find_addWithBinding_ne (p : Pattern) (o : Nat) (v : Value) (b : Binding) (m : Bool)
    (o' : Nat) (h : o' ≠ o) :
    Pattern.find (Pattern.addWithBinding p o v b m) o' = Pattern.find p o' :=
  find_AddList_ne p o _ m o' h

theorem hasKey_iff_find (p : Pattern) (o : Nat) :
    Pattern.hasKey p o = true ↔ ∃ l, Pattern.find p o = some l := by
  unfold Pattern.hasKey
  cases Pattern.find p o with
  | none => simp
  | some l => simp

theorem hasKey_AddList_self (p : Pattern) (o : Nat) (l : valueList) (m : Bool)
    (h : l.all (fun e => hasValidType o e.value) = true) :
    Pattern.hasKey (Pattern.AddList p o l m) o = true := by
  unfold Pattern.AddList
  rw [if_pos h]
  unfold Pattern.hasKey
  rw [find_set, if_pos rfl]
  rfl

theorem hasKey_AddList_mono (p : Pattern) (o : Nat) (l : valueList) (m : Bool) (o' : Nat)
    (h : Pattern.hasKey p o' = true) :
    Pattern.hasKey (Pattern.AddList p o l m) o' = true := by
  by_cases ho : o' = o
  · unfold Pattern.AddList
    split
    · unfold Pattern.hasKey
      rw [ho, find_set, if_pos rfl]
      rfl
    · rw [ho] at h ⊢
      exact h
  · unfold Pattern.hasKey at h ⊢
    rw [find_AddList_ne p o l m o' ho]
    exact h

theorem Add_eq (p : Pattern) (o : Nat) (v : Value) (m : Bool) (h : hasValidType o v = true) :
    Pattern.Add p o v m =
      Pattern.set p o
        (if m then Pattern.getVals p o ++ [⟨v, .strong⟩]
          else ⟨v, .strong⟩ :: Pattern.getVals p o) := by
  unfold Pattern.Add
  rw [addWithBinding_eq, if_pos h]

theorem AddInteger_eq (p : Pattern) (o : Nat) (v : Int) (h : hasValidType o (.vInt v) = true) :
    Pattern.AddInteger p o v =
      Pattern.set p o (Pattern.getVals p o ++ [⟨.vInt v, .strong⟩]) := by
  unfold Pattern.AddInteger
  rw [Add_eq p o _ true h, if_pos rfl]

theorem AddFloat_eq (p : Pattern) (o : Nat) (v : ℚ) (h : hasValidType o (.vFloat v) = true) :
    Pattern.AddFloat p o v =
      Pattern.set p o (Pattern.getVals p o ++ [⟨.vFloat v, .strong⟩]) := by
  unfold Pattern.AddFloat
  rw [Add_eq p o _ true h, if_pos rfl]

theorem AddString_eq (p : Pattern) (o : Nat) (v : String)
    (h : hasValidType o (.vString v) = true) :
    Pattern.AddString p o v =
      Pattern.set p o (Pattern.getVals p o ++ [⟨.vString v, .strong⟩]) := by
  unfold Pattern.AddString
  rw [Add_eq p o _ true h, if_pos rfl]

theorem AddBool_eq (p : Pattern) (o : Nat) (b : Bool)
    (h : hasValidType o (.vBool (if b then 1 else 0)) = true) :
    Pattern.AddBool p o b =
      Pattern.set p o (Pattern.getVals p o ++ [⟨.vBool (if b then 1 else 0), .strong⟩]) := by
  unfold Pattern.AddBool
  rw [Add_eq p o _ true h, if_pos rfl]

theorem wf_Add (p : Pattern) (hw : Pattern.wf p) (o : Nat) (v : Value) (m : Bool) :
    Pattern.wf (Pattern.Add p o v m) :=
  wf_addWithBinding p hw o v .strong m

theorem wf_AddInteger (p : Pattern) (hw : Pattern.wf p) (o : Nat) (v : Int) :
    Pattern.wf (Pattern.AddInteger p o v) := wf_Add p hw o _ true

theorem wf_AddFloat (p : Pattern) (hw : Pattern.wf p) (o : Nat) (v : ℚ) :
    Pattern.wf (Pattern.AddFloat p o v) := wf_Add p hw o _ true

theorem wf_AddString (p : Pattern) (hw : Pattern.wf p) (o : Nat) (v : String) :
    Pattern.wf (Pattern.AddString p o v) := wf_Add p hw o _ true

theorem wf_AddBool (p : Pattern) (hw : Pattern.wf p) (o : Nat) (b : Bool) :
    Pattern.wf (Pattern.AddBool p o b) := wf_Add p hw o _ true

theorem wf_Del (p : Pattern) (hw : Pattern.wf p) (o : Nat) :
    Pattern.wf (Pattern.Del p o) := wf_erase p hw o

end Fontconfig

namespace Fontconfig

theorem fillInt_of_hasKey (p : Pattern) (o : Nat) (v : Int) (h : Pattern.hasKey p o = true) :
    Pattern.fillInt p o v = p := by
  unfold Pattern.fillInt
  rw [if_pos h]

theorem fillBool_of_hasKey (p : Pattern) (o : Nat) (b : Bool) (h : Pattern.hasKey p o = true) :
    Pattern.fillBool p o b = p := by
  unfold Pattern.fillBool
  rw [if_pos h]

theorem fillString_of_hasKey (p : Pattern) (o : Nat) (v : String)
    (h : Pattern.hasKey p o = true) : Pattern.fillString p o v = p := by
  unfold Pattern.fillString
  rw [if_pos h]

theorem langFill_of_hasKey (p : Pattern) (o : Nat) (nl : Value)
    (h : Pattern.hasKey p o = true) : Pattern.langFill p o nl = p := by
  unfold Pattern.langFill
  rw [if_pos h]

theorem prgnameFill_of_hasKey (p : Pattern) (h : Pattern.hasKey p PRGNAME = true) :
    Pattern.prgnameFill p = p := by
  unfold Pattern.prgnameFill
  rw [if_pos h]

theorem find_fillInt_ne (p : Pattern) (o : Nat) (v : Int) (o' : Nat) (h : o' ≠ o) :
    Pattern.find (Pattern.fillInt p o v) o' = Pattern.find p o' := by
  unfold Pattern.fillInt
  split
  · rfl
  · exact find_AddList_ne p o _ true o' h

theorem find_fillBool_ne (p : Pattern) (o : Nat) (b : Bool) (o' : Nat) (h : o' ≠ o) :
    Pattern.find (Pattern.fillBool p o b) o' = Pattern.find p o' := by
  unfold Pattern.fillBool
  split
  · rfl
  · exact find_AddList_ne p o _ true o' h

theorem find_fillString_ne (p : Pattern) (o : Nat) (v : String) (o' : Nat) (h : o' ≠ o) :
    Pattern.find (Pattern.fillString p o v) o' = Pattern.find p o' := by
  unfold Pattern.fillString
  split
  · rfl
  · exact find_AddList_ne p o _ true o' h

theorem find_langFill_ne (p : Pattern) (o : Nat) (nl : Value) (o' : Nat) (h : o' ≠ o) :
    Pattern.find (Pattern.langFill p o nl) o' = Pattern.find p o' := by
  unfold Pattern.langFill
  split
  · rfl
  · rw [find_addWithBinding_ne _ o _ _ _ _ h]
    unfold Pattern.Add
    rw [find_addWithBinding_ne _ o _ _ _ _ h]

theorem find_prgnameFill_ne (p : Pattern) (o' : Nat) (h : o' ≠ PRGNAME) :
    Pattern.find (Pattern.prgnameFill p) o' = Pattern.find p o' := by
  unfold Pattern.prgnameFill
  split
  · rfl
  · split
    · rfl
    · unfold Pattern.AddString Pattern.Add
      exact find_addWithBinding_ne p PRGNAME _ .strong true o' h

theorem hasKey_fillInt_self (p : Pattern) (o : Nat) (v : Int)
    (hv : hasValidType o (.vInt v) = true) :
    Pattern.hasKey (Pattern.fillInt p o v) o = true := by
  unfold Pattern.fillInt
  split
  · assumption
  · exact hasKey_AddList_self p o _ true (by simp [hv])

theorem hasKey_fillString_self (p : Pattern) (o : Nat) (v : String)
    (hv : hasValidType o (.vString v) = true) :
    Pattern.hasKey (Pattern.fillString p o v) o = true := by
  unfold Pattern.fillString
  split
  · assumption
  · exact hasKey_AddList_self p o _ true (by simp [hv])

theorem hasKey_langFill_self (p : Pattern) (o : Nat) (nl : Value)
    (hv : hasValidType o (.vString "en-us") = true) :
    Pattern.hasKey (Pattern.langFill p o nl) o = true := by
  unfold Pattern.langFill
  split
  · assumption
  · exact hasKey_AddList_self _ o _ true (by simp [hv])

theorem hasKey_prgnameFill_self (p : Pattern) :
    Pattern.hasKey (Pattern.prgnameFill p) PRGNAME = true := by
  unfold Pattern.prgnameFill
  split
  · assumption
  · split
    case isTrue hc => exact absurd hc (by decide)
    case isFalse =>
      unfold Pattern.AddString Pattern.Add Pattern.addWithBinding
      exact hasKey_AddList_self p PRGNAME [⟨.vString getProgramName, .strong⟩] true (by decide)

theorem wf_fillInt (p : Pattern) (hw : Pattern.wf p) (o : Nat) (v : Int) :
    Pattern.wf (Pattern.fillInt p o v) := by
  unfold Pattern.fillInt
  split
  · exact hw
  · exact wf_AddInteger p hw o v

theorem wf_fillBool (p : Pattern) (hw : Pattern.wf p) (o : Nat) (b : Bool) :
    Pattern.wf (Pattern.fillBool p o b) := by
  unfold Pattern.fillBool
  split
  · exact hw
  · exact wf_AddBool p hw o b

theorem wf_fillString (p : Pattern) (hw : Pattern.wf p) (o : Nat) (v : String) :
    Pattern.wf (Pattern.fillString p o v) := by
  unfold Pattern.fillString
  split
  · exact hw
  · exact wf_AddString p hw o v

theorem wf_langFill (p : Pattern) (hw : Pattern.wf p) (o : Nat) (nl : Value) :
    Pattern.wf (Pattern.langFill p o nl) := by
  unfold Pattern.langFill
  split
  · exact hw
  · exact wf_addWithBinding _ (wf_Add p hw o nl true) o _ .weak true

theorem wf_prgnameFill (p : Pattern) (hw : Pattern.wf p) :
    Pattern.wf (Pattern.prgnameFill p) := by
  unfold Pattern.prgnameFill
  split
  · exact hw
  · split
    · exact hw
    · exact wf_AddString p hw PRGNAME _

theorem foldl_fillBool_skip (L : List (Nat × Bool)) (p : Pattern)
    (h : ∀ x ∈ L, Pattern.hasKey p x.1 = true) :
    L.foldl (fun q bd => Pattern.fillBool q bd.1 bd.2) p = p := by
  induction L with
  | nil => rfl
  | cons y t ih =>
    simp only [List.foldl_cons]
    rw [fillBool_of_hasKey p y.1 y.2 (h y (List.mem_cons_self y t))]
    exact ih fun x hx => h x (List.mem_cons_of_mem y hx)

theorem find_foldl_fillBool_ne (L : List (Nat × Bool)) (p : Pattern) (o' : Nat)
    (h : ∀ x ∈ L, x.1 ≠ o') :
    Pattern.find (L.foldl (fun q bd => Pattern.fillBool q bd.1 bd.2) p) o' =
      Pattern.find p o' := by
  induction L generalizing p with
  | nil => rfl
  | cons y t ih =>
    simp only [List.foldl_cons]
    rw [ih _ fun x hx => h x (List.mem_cons_of_mem y hx),
      find_fillBool_ne p y.1 y.2 o' fun hc => h y (List.mem_cons_self y t) hc.symm]

theorem hasKey_foldl_fillBool_mono (L : List (Nat × Bool)) (p : Pattern) (o : Nat)
    (h : Pattern.hasKey p o = true) :
    Pattern.hasKey (L.foldl (fun q bd => Pattern.fillBool q bd.1 bd.2) p) o = true := by
  induction L generalizing p with
  | nil => exact h
  | cons y t ih =>
    simp only [List.foldl_cons]
    refine ih _ ?_
    unfold Pattern.fillBool
    split
    · exact h
    · exact hasKey_AddList_mono p y.1 _ true o h

theorem hasKey_foldl_fillBool (L : List (Nat × Bool)) (p : Pattern)
    (hv : ∀ x ∈ L, hasValidType x.1 (.vBool (if x.2 then 1 else 0)) = true) :
    ∀ x ∈ L, Pattern.hasKey (L.foldl (fun q bd => Pattern.fillBool q bd.1 bd.2) p) x.1 = true := by
  induction L generalizing p with
  | nil => intro x hx; cases hx
  | cons y t ih =>
    intro x hx
    simp only [List.foldl_cons]
    rcases List.mem_cons.mp hx with hx1 | hx1
    · refine hasKey_foldl_fillBool_mono t _ x.1 ?_
      rw [hx1]
      unfold Pattern.fillBool
      split
      · assumption
      · exact hasKey_AddList_self p y.1 _ true
          (by simp [hv y (List.mem_cons_self y t)])
    · exact ih _ (fun z hz => hv z (List.mem_cons_of_mem y hz)) x hx1

theorem fillBools_skip (p : Pattern) (h : ∀ x ∈ boolDefaults, Pattern.hasKey p x.1 = true) :
    Pattern.fillBools p = p :=
  foldl_fillBool_skip boolDefaults p h

theorem find_fillBools_ne (p : Pattern) (o' : Nat) (h : ∀ x ∈ boolDefaults, x.1 ≠ o') :
    Pattern.find (Pattern.fillBools p) o' = Pattern.find p o' :=
  find_foldl_fillBool_ne boolDefaults p o' h

theorem hasKey_fillBools (p : Pattern) :
    ∀ x ∈ boolDefaults, Pattern.hasKey (Pattern.fillBools p) x.1 = true :=
  hasKey_foldl_fillBool boolDefaults p (by decide)

theorem wf_fillBools (p : Pattern) (hw : Pattern.wf p) : Pattern.wf (Pattern.fillBools p) := by
  unfold Pattern.fillBools
  generalize boolDefaults = L
  induction L generalizing p with
  | nil => exact hw
  | cons y t ih =>
    simp only [List.foldl_cons]
    exact ih _ (wf_fillBool p hw y.1 y.2)

end Fontconfig

namespace Fontconfig

theorem find_AddFloat_ne (p : Pattern) (o : Nat) (v : ℚ) (o' : Nat) (h : o' ≠ o) :
    Pattern.find (Pattern.AddFloat p o v) o' = Pattern.find p o' := by
  unfold Pattern.AddFloat Pattern.Add
  exact find_addWithBinding_ne p o _ .strong true o' h

theorem find_Del_ne (p : Pattern) (o o' : Nat) (h : o' ≠ o) :
    Pattern.find (Pattern.Del p o) o' = Pattern.find p o' :=
  find_erase_ne p o o' h

theorem getVals_Del_self (p : Pattern) (hw : Pattern.wf p) (o : Nat) :
    Pattern.getVals (Pattern.Del p o) o = [] := by
  rw [getVals_eq]
  unfold Pattern.Del
  rw [find_erase_self p hw o]
  rfl

theorem sizeStage_then (p : Pattern) (hpx : (Pattern.getVals p PIXEL_SIZE).length = 0) :
    Pattern.sizeStage p =
      Pattern.AddFloat
        (Pattern.Del
          (Pattern.AddFloat
            (Pattern.AddFloat
              (Pattern.Del (Pattern.AddFloat (Pattern.Del p SCALE) SCALE p.defaultedScale) DPI)
              DPI p.defaultedDpi)
            PIXEL_SIZE (p.defaultedSize * p.defaultedScale * (p.defaultedDpi / 72)))
          SIZE)
        SIZE p.defaultedSize := by
  simp only [Pattern.sizeStage, hpx, if_true]

theorem sizeStage_else (p : Pattern) (hpx : (Pattern.getVals p PIXEL_SIZE).length ≠ 0) :
    Pattern.sizeStage p =
      Pattern.AddFloat (Pattern.Del p SIZE) SIZE
        (p.pixelHead / p.defaultedDpi * 72 / p.defaultedScale) := by
  simp only [Pattern.sizeStage, hpx, if_false]

theorem wf_sizeStage (p : Pattern) (hw : Pattern.wf p) : Pattern.wf (Pattern.sizeStage p) := by
  by_cases hpx : (Pattern.getVals p PIXEL_SIZE).length = 0
  · rw [sizeStage_then p hpx]
    exact wf_AddFloat _ (wf_Del _ (wf_AddFloat _ (wf_AddFloat _ (wf_Del _
      (wf_AddFloat _ (wf_Del _ hw _) _ _) _) _ _) _ _) _) _ _
  · rw [sizeStage_else p hpx]
    exact wf_AddFloat _ (wf_Del _ hw _) _ _

theorem find_sizeStage_other (p : Pattern) (o : Nat) (h1 : o ≠ SCALE) (h2 : o ≠ DPI)
    (h3 : o ≠ PIXEL_SIZE) (h4 : o ≠ SIZE) :
    Pattern.find (Pattern.sizeStage p) o = Pattern.find p o := by
  by_cases hpx : (Pattern.getVals p PIXEL_SIZE).length = 0
  · rw [sizeStage_then p hpx, find_AddFloat_ne _ _ _ _ h4, find_Del_ne _ _ _ h4,
      find_AddFloat_ne _ _ _ _ h3, find_AddFloat_ne _ _ _ _ h2, find_Del_ne _ _ _ h2,
      find_AddFloat_ne _ _ _ _ h1, find_Del_ne _ _ _ h1]
  · rw [sizeStage_else p hpx, find_AddFloat_ne _ _ _ _ h4, find_Del_ne _ _ _ h4]

theorem find_sizeStage_SIZE (p : Pattern) (hw : Pattern.wf p) :
    Pattern.find (Pattern.sizeStage p) SIZE = some [⟨.vFloat p.sizeResult, .strong⟩] := by
  by_cases hpx : (Pattern.getVals p PIXEL_SIZE).length = 0
  · rw [sizeStage_then p hpx]
    have hwX : Pattern.wf
        (Pattern.AddFloat
          (Pattern.AddFloat
            (Pattern.Del (Pattern.AddFloat (Pattern.Del p SCALE) SCALE p.defaultedScale) DPI)
            DPI p.defaultedDpi)
          PIXEL_SIZE (p.defaultedSize * p.defaultedScale * (p.defaultedDpi / 72))) :=
      wf_AddFloat _ (wf_AddFloat _ (wf_Del _ (wf_AddFloat _ (wf_Del _ hw _) _ _) _) _ _) _ _
    rw [AddFloat_eq _ SIZE _ rfl, getVals_Del_self _ hwX SIZE, find_set, if_pos rfl]
    rw [List.nil_append]
    unfold Pattern.sizeResult
    rw [if_pos hpx]
  · rw [sizeStage_else p hpx]
    rw [AddFloat_eq _ SIZE _ rfl, getVals_Del_self _ hw SIZE, find_set, if_pos rfl]
    rw [List.nil_append]
    unfold Pattern.sizeResult
    rw [if_neg hpx]

theorem find_sizeStage_SCALE (p : Pattern) (hw : Pattern.wf p) :
    Pattern.find (Pattern.sizeStage p) SCALE =
      if (Pattern.getVals p PIXEL_SIZE).length = 0 then
        some [⟨.vFloat p.defaultedScale, .strong⟩]
      else Pattern.find p SCALE := by
  by_cases hpx : (Pattern.getVals p PIXEL_SIZE).length = 0
  · rw [if_pos hpx, sizeStage_then p hpx,
      find_AddFloat_ne _ _ _ _ (by decide), find_Del_ne _ _ _ (by decide),
      find_AddFloat_ne _ _ _ _ (by decide), find_AddFloat_ne _ _ _ _ (by decide),
      find_Del_ne _ _ _ (by decide)]
    rw [AddFloat_eq _ SCALE _ rfl, getVals_Del_self _ hw SCALE, find_set, if_pos rfl,
      List.nil_append]
  · rw [if_neg hpx, sizeStage_else p hpx, find_AddFloat_ne _ _ _ _ (by decide),
      find_Del_ne _ _ _ (by decide)]

theorem find_sizeStage_DPI (p : Pattern) (hw : Pattern.wf p) :
    Pattern.find (Pattern.sizeStage p) DPI =
      if (Pattern.getVals p PIXEL_SIZE).length = 0 then
        some [⟨.vFloat p.defaultedDpi, .strong⟩]
      else Pattern.find p DPI := by
  by_cases hpx : (Pattern.getVals p PIXEL_SIZE).length = 0
  · rw [if_pos hpx, sizeStage_then p hpx,
      find_AddFloat_ne _ _ _ _ (by decide), find_Del_ne _ _ _ (by decide),
      find_AddFloat_ne _ _ _ _ (by decide)]
    have hwY : Pattern.wf
        (Pattern.Del (Pattern.AddFloat (Pattern.Del p SCALE) SCALE p.defaultedScale) DPI) :=
      wf_Del _ (wf_AddFloat _ (wf_Del _ hw _) _ _) _
    rw [AddFloat_eq _ DPI _ rfl, find_set, if_pos rfl]
    have : Pattern.getVals
        (Pattern.Del (Pattern.AddFloat (Pattern.Del p SCALE) SCALE p.defaultedScale) DPI) DPI =
        [] :=
      getVals_Del_self _ (wf_AddFloat _ (wf_Del _ hw _) _ _) DPI
    rw [this, List.nil_append]
  · rw [if_neg hpx, sizeStage_else p hpx, find_AddFloat_ne _ _ _ _ (by decide),
      find_Del_ne _ _ _ (by decide)]

theorem find_sizeStage_PIXEL (p : Pattern) (hw : Pattern.wf p) :
    Pattern.find (Pattern.sizeStage p) PIXEL_SIZE =
      if (Pattern.getVals p PIXEL_SIZE).length = 0 then
        some [⟨.vFloat (p.defaultedSize * p.defaultedScale * (p.defaultedDpi / 72)), .strong⟩]
      else Pattern.find p PIXEL_SIZE := by
  by_cases hpx : (Pattern.getVals p PIXEL_SIZE).length = 0
  · rw [if_pos hpx, sizeStage_then p hpx,
      find_AddFloat_ne _ _ _ _ (by decide), find_Del_ne _ _ _ (by decide)]
    rw [AddFloat_eq _ PIXEL_SIZE _ rfl, find_set, if_pos rfl]
    have hg : Pattern.getVals
        (Pattern.AddFloat
          (Pattern.Del (Pattern.AddFloat (Pattern.Del p SCALE) SCALE p.defaultedScale) DPI)
          DPI p.defaultedDpi) PIXEL_SIZE = Pattern.getVals p PIXEL_SIZE := by
      rw [getVals_eq, getVals_eq, find_AddFloat_ne _ _ _ _ (by decide),
        find_Del_ne _ _ _ (by decide), find_AddFloat_ne _ _ _ _ (by decide),
        find_Del_ne _ _ _ (by decide)]
    rw [hg, List.length_eq_zero.mp hpx, List.nil_append]
  · rw [if_neg hpx, sizeStage_else p hpx, find_AddFloat_ne _ _ _ _ (by decide),
      find_Del_ne _ _ _ (by decide)]

end Fontconfig

namespace Fontconfig

theorem defaultedScale_congr (p q : Pattern)
    (h : Pattern.find p SCALE = Pattern.find q SCALE) :
    p.defaultedScale = q.defaultedScale := by
  unfold Pattern.defaultedScale Pattern.GetFloat Pattern.GetAt
  rw [h]

theorem defaultedDpi_congr (p q : Pattern) (h : Pattern.find p DPI = Pattern.find q DPI) :
    p.defaultedDpi = q.defaultedDpi := by
  unfold Pattern.defaultedDpi Pattern.GetFloat Pattern.GetAt
  rw [h]

theorem defaultedSize_congr (p q : Pattern) (h : Pattern.find p SIZE = Pattern.find q SIZE) :
    p.defaultedSize = q.defaultedSize := by
  unfold Pattern.defaultedSize Pattern.GetAt
  rw [h]

theorem pixelHead_congr (p q : Pattern)
    (h : Pattern.find p PIXEL_SIZE = Pattern.find q PIXEL_SIZE) :
    p.pixelHead = q.pixelHead := by
  unfold Pattern.pixelHead Pattern.getVals
  rw [h]

theorem defaultedScale_of_find (p : Pattern) (x : ℚ) (b : Binding)
    (h : Pattern.find p SCALE = some [⟨.vFloat x, b⟩]) : p.defaultedScale = x := by
  unfold Pattern.defaultedScale Pattern.GetFloat Pattern.GetAt
  rw [h]
  rfl

theorem defaultedDpi_of_find (p : Pattern) (x : ℚ) (b : Binding)
    (h : Pattern.find p DPI = some [⟨.vFloat x, b⟩]) : p.defaultedDpi = x := by
  unfold Pattern.defaultedDpi Pattern.GetFloat Pattern.GetAt
  rw [h]
  rfl

theorem pixelHead_of_find (p : Pattern) (x : ℚ) (b : Binding) (rest : valueList)
    (h : Pattern.find p PIXEL_SIZE = some (⟨.vFloat x, b⟩ :: rest)) : p.pixelHead = x := by
  unfold Pattern.pixelHead Pattern.getVals
  rw [h]
  rfl

theorem hasKey_fillInt_mono (p : Pattern) (o : Nat) (v : Int) (o' : Nat)
    (h : Pattern.hasKey p o' = true) : Pattern.hasKey (Pattern.fillInt p o v) o' = true := by
  unfold Pattern.fillInt
  split
  · exact h
  · exact hasKey_AddList_mono p o _ true o' h

theorem hasKey_fillString_mono (p : Pattern) (o : Nat) (v : String) (o' : Nat)
    (h : Pattern.hasKey p o' = true) : Pattern.hasKey (Pattern.fillString p o v) o' = true := by
  unfold Pattern.fillString
  split
  · exact h
  · exact hasKey_AddList_mono p o _ true o' h

theorem hasKey_langFill_mono (p : Pattern) (o : Nat) (nl : Value) (o' : Nat)
    (h : Pattern.hasKey p o' = true) : Pattern.hasKey (Pattern.langFill p o nl) o' = true := by
  unfold Pattern.langFill
  split
  · exact h
  · exact hasKey_AddList_mono _ o _ true o' (hasKey_AddList_mono p o _ true o' h)

theorem hasKey_prgnameFill_mono (p : Pattern) (o' : Nat)
    (h : Pattern.hasKey p o' = true) : Pattern.hasKey (Pattern.prgnameFill p) o' = true := by
  unfold Pattern.prgnameFill
  split
  · exact h
  · split
    · exact h
    · unfold Pattern.AddString Pattern.Add Pattern.addWithBinding
      exact hasKey_AddList_mono p PRGNAME _ true o' h

theorem hasKey_sizeStage_mono (p : Pattern) (hw : Pattern.wf p) (o' : Nat)
    (h : Pattern.hasKey p o' = true) : Pattern.hasKey (Pattern.sizeStage p) o' = true := by
  by_cases h4 : o' = SIZE
  · rw [h4, hasKey_iff_find]
    exact ⟨_, find_sizeStage_SIZE p hw⟩
  by_cases h1 : o' = SCALE
  · rw [hasKey_iff_find] at h ⊢
    rw [h1] at h ⊢
    rw [find_sizeStage_SCALE p hw]
    split
    · exact ⟨_, rfl⟩
    · exact h
  by_cases h2 : o' = DPI
  · rw [hasKey_iff_find] at h ⊢
    rw [h2] at h ⊢
    rw [find_sizeStage_DPI p hw]
    split
    · exact ⟨_, rfl⟩
    · exact h
  by_cases h3 : o' = PIXEL_SIZE
  · rw [hasKey_iff_find] at h ⊢
    rw [h3] at h ⊢
    rw [find_sizeStage_PIXEL p hw]
    split
    · exact ⟨_, rfl⟩
    · exact h
  · rw [hasKey_iff_find] at h ⊢
    rw [find_sizeStage_other p o' h1 h2 h3 h4]
    exact h

theorem wf_preSize (p : Pattern) (hw : Pattern.wf p) : Pattern.wf (Pattern.preSize p) :=
  wf_fillBools _ (wf_fillInt _ (wf_fillInt _ (wf_fillInt _ hw _ _) _ _) _ _)

theorem wf_postSize (p : Pattern) (hw : Pattern.wf p) : Pattern.wf (Pattern.postSize p) := by
  unfold Pattern.postSize
  exact wf_fillInt _ (wf_prgnameFill _ (wf_langFill _ (wf_langFill _ (wf_langFill _
    (wf_fillString _ (wf_fillInt _ (wf_fillInt _ hw _ _) _ _) _ _) _ _) _ _) _ _)) _ _

theorem wf_SubstituteDefault (p : Pattern) (hw : Pattern.wf p) :
    Pattern.wf (Pattern.SubstituteDefault p) :=
  wf_postSize _ (wf_sizeStage _ (wf_preSize p hw))

theorem find_preSize_ne (p : Pattern) (o : Nat) (h1 : o ≠ WEIGHT) (h2 : o ≠ SLANT)
    (h3 : o ≠ WIDTH) (h4 : ∀ x ∈ boolDefaults, x.1 ≠ o) :
    Pattern.find (Pattern.preSize p) o = Pattern.find p o := by
  unfold Pattern.preSize
  rw [find_fillBools_ne _ _ h4, find_fillInt_ne _ _ _ _ h3, find_fillInt_ne _ _ _ _ h2,
    find_fillInt_ne _ _ _ _ h1]

theorem find_postSize_ne (p : Pattern) (o : Nat) (h1 : o ≠ FONTVERSION) (h2 : o ≠ HINT_STYLE)
    (h3 : o ≠ NAMELANG) (h4 : o ≠ FAMILYLANG) (h5 : o ≠ STYLELANG) (h6 : o ≠ FULLNAMELANG)
    (h7 : o ≠ PRGNAME) (h8 : o ≠ ORDER) :
    Pattern.find (Pattern.postSize p) o = Pattern.find p o := by
  unfold Pattern.postSize
  rw [find_fillInt_ne _ _ _ _ h8, find_prgnameFill_ne _ _ h7, find_langFill_ne _ _ _ _ h6,
    find_langFill_ne _ _ _ _ h5, find_langFill_ne _ _ _ _ h4, find_fillString_ne _ _ _ _ h3,
    find_fillInt_ne _ _ _ _ h2, find_fillInt_ne _ _ _ _ h1]

end Fontconfig

namespace Fontconfig

theorem hasKey_preSize_mono (p : Pattern) (o : Nat) (h : Pattern.hasKey p o = true) :
    Pattern.hasKey (Pattern.preSize p) o = true := by
  unfold Pattern.preSize Pattern.fillBools
  exact hasKey_foldl_fillBool_mono _ _ _
    (hasKey_fillInt_mono _ _ _ _ (hasKey_fillInt_mono _ _ _ _ (hasKey_fillInt_mono _ _ _ _ h)))

theorem hasKey_postSize_mono (p : Pattern) (o : Nat) (h : Pattern.hasKey p o = true) :
    Pattern.hasKey (Pattern.postSize p) o = true := by
  unfold Pattern.postSize
  exact hasKey_fillInt_mono _ _ _ _ (hasKey_prgnameFill_mono _ _
    (hasKey_langFill_mono _ _ _ _ (hasKey_langFill_mono _ _ _ _ (hasKey_langFill_mono _ _ _ _
      (hasKey_fillString_mono _ _ _ _
        (hasKey_fillInt_mono _ _ _ _ (hasKey_fillInt_mono _ _ _ _ h)))))))

theorem hasKey_preSize_WEIGHT (p : Pattern) :
    Pattern.hasKey (Pattern.preSize p) WEIGHT = true := by
  unfold Pattern.preSize Pattern.fillBools
  exact hasKey_foldl_fillBool_mono _ _ _ (hasKey_fillInt_mono _ _ _ _
    (hasKey_fillInt_mono _ _ _ _ (hasKey_fillInt_self p WEIGHT WEIGHT_NORMAL rfl)))

theorem hasKey_preSize_SLANT (p : Pattern) :
    Pattern.hasKey (Pattern.preSize p) SLANT = true := by
  unfold Pattern.preSize Pattern.fillBools
  exact hasKey_foldl_fillBool_mono _ _ _ (hasKey_fillInt_mono _ _ _ _
    (hasKey_fillInt_self _ SLANT SLANT_ROMAN rfl))

theorem hasKey_preSize_WIDTH (p : Pattern) :
    Pattern.hasKey (Pattern.preSize p) WIDTH = true := by
  unfold Pattern.preSize Pattern.fillBools
  exact hasKey_foldl_fillBool_mono _ _ _ (hasKey_fillInt_self _ WIDTH WIDTH_NORMAL rfl)

theorem hasKey_preSize_bools (p : Pattern) :
    ∀ x ∈ boolDefaults, Pattern.hasKey (Pattern.preSize p) x.1 = true := by
  unfold Pattern.preSize
  exact hasKey_fillBools _

theorem hasKey_postSize_FONTVERSION (p : Pattern) :
    Pattern.hasKey (Pattern.postSize p) FONTVERSION = true := by
  unfold Pattern.postSize
  exact hasKey_fillInt_mono _ _ _ _ (hasKey_prgnameFill_mono _ _
    (hasKey_langFill_mono _ _ _ _ (hasKey_langFill_mono _ _ _ _ (hasKey_langFill_mono _ _ _ _
      (hasKey_fillString_mono _ _ _ _ (hasKey_fillInt_mono _ _ _ _
        (hasKey_fillInt_self _ FONTVERSION _ rfl)))))))

theorem hasKey_postSize_HINT_STYLE (p : Pattern) :
    Pattern.hasKey (Pattern.postSize p) HINT_STYLE = true := by
  unfold Pattern.postSize
  exact hasKey_fillInt_mono _ _ _ _ (hasKey_prgnameFill_mono _ _
    (hasKey_langFill_mono _ _ _ _ (hasKey_langFill_mono _ _ _ _ (hasKey_langFill_mono _ _ _ _
      (hasKey_fillString_mono _ _ _ _ (hasKey_fillInt_self _ HINT_STYLE _ rfl))))))

theorem hasKey_postSize_NAMELANG (p : Pattern) :
    Pattern.hasKey (Pattern.postSize p) NAMELANG = true := by
  unfold Pattern.postSize
  exact hasKey_fillInt_mono _ _ _ _ (hasKey_prgnameFill_mono _ _
    (hasKey_langFill_mono _ _ _ _ (hasKey_langFill_mono _ _ _ _ (hasKey_langFill_mono _ _ _ _
      (hasKey_fillString_self _ NAMELANG _ rfl)))))

theorem hasKey_postSize_FAMILYLANG (p : Pattern) :
    Pattern.hasKey (Pattern.postSize p) FAMILYLANG = true := by
  unfold Pattern.postSize
  exact hasKey_fillInt_mono _ _ _ _ (hasKey_prgnameFill_mono _ _
    (hasKey_langFill_mono _ _ _ _ (hasKey_langFill_mono _ _ _ _
      (hasKey_langFill_self _ FAMILYLANG _ rfl))))

theorem hasKey_postSize_STYLELANG (p : Pattern) :
    Pattern.hasKey (Pattern.postSize p) STYLELANG = true := by
  unfold Pattern.postSize
  exact hasKey_fillInt_mono _ _ _ _ (hasKey_prgnameFill_mono _ _
    (hasKey_langFill_mono _ _ _ _ (hasKey_langFill_self _ STYLELANG _ rfl)))

theorem hasKey_postSize_FULLNAMELANG (p : Pattern) :
    Pattern.hasKey (Pattern.postSize p) FULLNAMELANG = true := by
  unfold Pattern.postSize
  exact hasKey_fillInt_mono _ _ _ _ (hasKey_prgnameFill_mono _ _
    (hasKey_langFill_self _ FULLNAMELANG _ rfl))

theorem hasKey_postSize_PRGNAME (p : Pattern) :
    Pattern.hasKey (Pattern.postSize p) PRGNAME = true := by
  unfold Pattern.postSize
  exact hasKey_fillInt_mono _ _ _ _ (hasKey_prgnameFill_self _)

theorem hasKey_postSize_ORDER (p : Pattern) :
    Pattern.hasKey (Pattern.postSize p) ORDER = true := by
  unfold Pattern.postSize
  exact hasKey_fillInt_self _ ORDER 0 rfl

theorem SD_fixpoint (q : Pattern) (hw : Pattern.wf q)
    (hk1 : Pattern.hasKey q WEIGHT = true) (hk2 : Pattern.hasKey q SLANT = true)
    (hk3 : Pattern.hasKey q WIDTH = true)
    (hk4 : ∀ x ∈ boolDefaults, Pattern.hasKey q x.1 = true)
    (hk5 : Pattern.hasKey q FONTVERSION = true) (hk6 : Pattern.hasKey q HINT_STYLE = true)
    (hk7 : Pattern.hasKey q NAMELANG = true) (hk8 : Pattern.hasKey q FAMILYLANG = true)
    (hk9 : Pattern.hasKey q STYLELANG = true) (hk10 : Pattern.hasKey q FULLNAMELANG = true)
    (hk11 : Pattern.hasKey q PRGNAME = true) (hk12 : Pattern.hasKey q ORDER = true)
    (hpx : (Pattern.getVals q PIXEL_SIZE).length ≠ 0)
    (hsz : Pattern.find q SIZE = some [⟨.vFloat q.sizeResult, .strong⟩]) :
    Pattern.SubstituteDefault q = q := by
  have hpre : Pattern.preSize q = q := by
    unfold Pattern.preSize
    rw [fillInt_of_hasKey _ _ _ hk1, fillInt_of_hasKey _ _ _ hk2, fillInt_of_hasKey _ _ _ hk3,
      fillBools_skip _ hk4]
  have hsize : Pattern.sizeStage q = q := by
    rw [sizeStage_else q hpx, AddFloat_eq _ SIZE _ rfl, getVals_Del_self q hw SIZE,
      List.nil_append]
    unfold Pattern.Del
    rw [set_erase q hw SIZE]
    have hval : q.pixelHead / q.defaultedDpi * 72 / q.defaultedScale = q.sizeResult := by
      unfold Pattern.sizeResult
      rw [if_neg hpx]
    rw [hval]
    exact set_find_self q hw SIZE _ hsz
  have hpost : Pattern.postSize q = q := by
    simp only [Pattern.postSize]
    rw [fillInt_of_hasKey _ _ _ hk5, fillInt_of_hasKey _ _ _ hk6,
      fillString_of_hasKey _ _ _ hk7, langFill_of_hasKey _ _ _ hk8,
      langFill_of_hasKey _ _ _ hk9, langFill_of_hasKey _ _ _ hk10,
      prgnameFill_of_hasKey _ hk11, fillInt_of_hasKey _ _ _ hk12]
  unfold Pattern.SubstituteDefault
  rw [hpre, hsize, hpost]

end Fontconfig

namespace Fontconfig

/-- C2 (amended): `SubstituteDefault` is not idempotent in general (see
the counterexample), but it is idempotent on every pattern that already
holds a pixel size: there the size block takes the back-computation
branch, which reads the pixel size, dpi and scale — none of which the
pass ever writes in that branch — and stores
`pixelSize / dpi * 72 / scale`; a second run recomputes the very same
value from the very same operands, an identity that does not depend on
the arithmetic being exact (it holds equally over IEEE floats), and
every other stage only fills absent objects. -/
theorem substituteDefault_idem (p : Pattern) (hw : Pattern.wf p)
    (hpx : (Pattern.getVals p PIXEL_SIZE).length ≠ 0) :
    Pattern.SubstituteDefault (Pattern.SubstituteDefault p) = Pattern.SubstituteDefault p := by
  have hqSD : Pattern.SubstituteDefault p =
      Pattern.postSize (Pattern.sizeStage (Pattern.preSize p)) := rfl
  rw [hqSD]
  set r4 := Pattern.preSize p
  set r5 := Pattern.sizeStage r4
  set q := Pattern.postSize r5
  have hw4 : Pattern.wf r4 := wf_preSize p hw
  have hw5 : Pattern.wf r5 := wf_sizeStage r4 hw4
  have hwq : Pattern.wf q := wf_postSize r5 hw5
  have hgP : Pattern.find r4 PIXEL_SIZE = Pattern.find p PIXEL_SIZE :=
    find_preSize_ne p PIXEL_SIZE (by decide) (by decide) (by decide) (by decide)
  have hpx4 : (Pattern.getVals r4 PIXEL_SIZE).length ≠ 0 := by
    rw [getVals_eq, hgP, ← getVals_eq]
    exact hpx
  have hfS : Pattern.find q SCALE = Pattern.find r5 SCALE :=
    find_postSize_ne r5 SCALE (by decide) (by decide) (by decide) (by decide) (by decide)
      (by decide) (by decide) (by decide)
  have hfD : Pattern.find q DPI = Pattern.find r5 DPI :=
    find_postSize_ne r5 DPI (by decide) (by decide) (by decide) (by decide) (by decide)
      (by decide) (by decide) (by decide)
  have hfP : Pattern.find q PIXEL_SIZE = Pattern.find r5 PIXEL_SIZE :=
    find_postSize_ne r5 PIXEL_SIZE (by decide) (by decide) (by decide) (by decide) (by decide)
      (by decide) (by decide) (by decide)
  have hfZ : Pattern.find q SIZE = Pattern.find r5 SIZE :=
    find_postSize_ne r5 SIZE (by decide) (by decide) (by decide) (by decide) (by decide)
      (by decide) (by decide) (by decide)
  have hk1 : Pattern.hasKey q WEIGHT = true :=
    hasKey_postSize_mono _ _ (hasKey_sizeStage_mono r4 hw4 _ (hasKey_preSize_WEIGHT p))
  have hk2 : Pattern.hasKey q SLANT = true :=
    hasKey_postSize_mono _ _ (hasKey_sizeStage_mono r4 hw4 _ (hasKey_preSize_SLANT p))
  have hk3 : Pattern.hasKey q WIDTH = true :=
    hasKey_postSize_mono _ _ (hasKey_sizeStage_mono r4 hw4 _ (hasKey_preSize_WIDTH p))
  have hk4 : ∀ x ∈ boolDefaults, Pattern.hasKey q x.1 = true := fun x hx =>
    hasKey_postSize_mono _ _ (hasKey_sizeStage_mono r4 hw4 _ (hasKey_preSize_bools p x hx))
  have hk5 : Pattern.hasKey q FONTVERSION = true := hasKey_postSize_FONTVERSION r5
  have hk6 : Pattern.hasKey q HINT_STYLE = true := hasKey_postSize_HINT_STYLE r5
  have hk7 : Pattern.hasKey q NAMELANG = true := hasKey_postSize_NAMELANG r5
  have hk8 : Pattern.hasKey q FAMILYLANG = true := hasKey_postSize_FAMILYLANG r5
  have hk9 : Pattern.hasKey q STYLELANG = true := hasKey_postSize_STYLELANG r5
  have hk10 : Pattern.hasKey q FULLNAMELANG = true := hasKey_postSize_FULLNAMELANG r5
  have hk11 : Pattern.hasKey q PRGNAME = true := hasKey_postSize_PRGNAME r5
  have hk12 : Pattern.hasKey q ORDER = true := hasKey_postSize_ORDER r5
  have h5Z : Pattern.find r5 SIZE = some [⟨.vFloat r4.sizeResult, .strong⟩] :=
    find_sizeStage_SIZE r4 hw4
  have h5P : Pattern.find r5 PIXEL_SIZE = Pattern.find r4 PIXEL_SIZE := by
    rw [find_sizeStage_PIXEL r4 hw4, if_neg hpx4]
  have h5S : Pattern.find r5 SCALE = Pattern.find r4 SCALE := by
    rw [find_sizeStage_SCALE r4 hw4, if_neg hpx4]
  have h5D : Pattern.find r5 DPI = Pattern.find r4 DPI := by
    rw [find_sizeStage_DPI r4 hw4, if_neg hpx4]
  have hqgv : Pattern.getVals q PIXEL_SIZE = Pattern.getVals r4 PIXEL_SIZE := by
    rw [getVals_eq, getVals_eq, hfP, h5P]
  have hqpxne : (Pattern.getVals q PIXEL_SIZE).length ≠ 0 := by
    rw [hqgv]
    exact hpx4
  have hqScale : q.defaultedScale = r4.defaultedScale :=
    defaultedScale_congr q r4 (hfS.trans h5S)
  have hqDpi : q.defaultedDpi = r4.defaultedDpi :=
    defaultedDpi_congr q r4 (hfD.trans h5D)
  have hqHead : q.pixelHead = r4.pixelHead := pixelHead_congr q r4 (hfP.trans h5P)
  have hsrq : q.sizeResult = r4.sizeResult := by
    unfold Pattern.sizeResult
    rw [if_neg hqpxne, if_neg hpx4, hqHead, hqScale, hqDpi]
  have hqZ : Pattern.find q SIZE = some [⟨.vFloat q.sizeResult, .strong⟩] := by
    rw [hfZ, h5Z, hsrq]
  exact SD_fixpoint q hwq hk1 hk2 hk3 hk4 hk5 hk6 hk7 hk8 hk9 hk10 hk11 hk12 hqpxne hqZ

/-- Witness for `substituteDefault_idem` at the pattern
`{PIXEL_SIZE: 10.0}`: it is well-formed, holds a pixel size, and a
second `SubstituteDefault` leaves it unchanged. -/
theorem substituteDefault_idem_witness :
    (Pattern.wf (Pattern.AddFloat NewPattern PIXEL_SIZE 10) ∧
        (Pattern.getVals (Pattern.AddFloat NewPattern PIXEL_SIZE 10) PIXEL_SIZE).length ≠ 0) ∧
      Pattern.SubstituteDefault
          (Pattern.SubstituteDefault (Pattern.AddFloat NewPattern PIXEL_SIZE 10)) =
        Pattern.SubstituteDefault (Pattern.AddFloat NewPattern PIXEL_SIZE 10) :=
  ⟨⟨by decide, by decide⟩,
    substituteDefault_idem (Pattern.AddFloat NewPattern PIXEL_SIZE 10) (by decide) (by decide)⟩

/-- C7: in `SubstituteDefault`, the point size defaults to 12 when
`SIZE` is absent (and to the midpoint of a `Range` size), the scale
defaults to 1 and the dpi to 75 when absent; when the pattern has no
pixel size, the scale, the dpi and the derived pixel size
`size * scale * (dpi / 72)` are all stored, along with the size; when a
pixel size is present, it is left as is and the nominal point size is
back-computed from it as `pixelSize / dpi * 72 / scale` and stored. -/
theorem size_pixel_resolution (p : Pattern) (hw : Pattern.wf p) :
    (Pattern.find p SIZE = none → p.defaultedSize = 12) ∧
    (Pattern.find p SCALE = none → p.defaultedScale = 1) ∧
    (Pattern.find p DPI = none → p.defaultedDpi = 75) ∧
    (∀ lo hi b rest, Pattern.find p SIZE = some (⟨.vRange lo hi, b⟩ :: rest) →
      p.defaultedSize = (lo + hi) * (1 / 2)) ∧
    (if (Pattern.getVals p PIXEL_SIZE).length = 0 then
      Pattern.find (Pattern.SubstituteDefault p) SCALE =
        some [⟨.vFloat p.defaultedScale, .strong⟩] ∧
      Pattern.find (Pattern.SubstituteDefault p) DPI =
        some [⟨.vFloat p.defaultedDpi, .strong⟩] ∧
      Pattern.find (Pattern.SubstituteDefault p) PIXEL_SIZE =
        some [⟨.vFloat (p.defaultedSize * p.defaultedScale * (p.defaultedDpi / 72)), .strong⟩] ∧
      Pattern.find (Pattern.SubstituteDefault p) SIZE =
        some [⟨.vFloat p.defaultedSize, .strong⟩]
    else
      Pattern.find (Pattern.SubstituteDefault p) SIZE =
        some [⟨.vFloat (p.pixelHead / p.defaultedDpi * 72 / p.defaultedScale), .strong⟩] ∧
      Pattern.find (Pattern.SubstituteDefault p) PIXEL_SIZE = Pattern.find p PIXEL_SIZE) := by
  have hw4 : Pattern.wf (Pattern.preSize p) := wf_preSize p hw
  have hgP : Pattern.find (Pattern.preSize p) PIXEL_SIZE = Pattern.find p PIXEL_SIZE :=
    find_preSize_ne p PIXEL_SIZE (by decide) (by decide) (by decide) (by decide)
  have hgZ : Pattern.find (Pattern.preSize p) SIZE = Pattern.find p SIZE :=
    find_preSize_ne p SIZE (by decide) (by decide) (by decide) (by decide)
  have hgS : Pattern.find (Pattern.preSize p) SCALE = Pattern.find p SCALE :=
    find_preSize_ne p SCALE (by decide) (by decide) (by decide) (by decide)
  have hgD : Pattern.find (Pattern.preSize p) DPI = Pattern.find p DPI :=
    find_preSize_ne p DPI (by decide) (by decide) (by decide) (by decide)
  have hDS := defaultedSize_congr (Pattern.preSize p) p hgZ
  have hDC := defaultedScale_congr (Pattern.preSize p) p hgS
  have hDD := defaultedDpi_congr (Pattern.preSize p) p hgD
  have hPH := pixelHead_congr (Pattern.preSize p) p hgP
  have hgl : Pattern.getVals (Pattern.preSize p) PIXEL_SIZE = Pattern.getVals p PIXEL_SIZE := by
    rw [getVals_eq, getVals_eq, hgP]
  refine ⟨?_, ?_, ?_, ?_, ?_⟩
  · intro h
    simp [Pattern.defaultedSize, Pattern.GetAt, h]
  · intro h
    simp [Pattern.defaultedScale, Pattern.GetFloat, Pattern.GetAt, h]
  · intro h
    simp [Pattern.defaultedDpi, Pattern.GetFloat, Pattern.GetAt, h]
  · intro lo hi b rest h
    simp [Pattern.defaultedSize, Pattern.GetAt, h]
  · by_cases hpx : (Pattern.getVals p PIXEL_SIZE).length = 0
    · rw [if_pos hpx]
      have hpx4 : (Pattern.getVals (Pattern.preSize p) PIXEL_SIZE).length = 0 := by
        rw [hgl]
        exact hpx
      refine ⟨?_, ?_, ?_, ?_⟩
      · have h1 : Pattern.find (Pattern.SubstituteDefault p) SCALE =
            Pattern.find (Pattern.sizeStage (Pattern.preSize p)) SCALE :=
          find_postSize_ne _ SCALE (by decide) (by decide) (by decide) (by decide) (by decide)
            (by decide) (by decide) (by decide)
        rw [h1, find_sizeStage_SCALE _ hw4, if_pos hpx4, hDC]
      · have h1 : Pattern.find (Pattern.SubstituteDefault p) DPI =
            Pattern.find (Pattern.sizeStage (Pattern.preSize p)) DPI :=
          find_postSize_ne _ DPI (by decide) (by decide) (by decide) (by decide) (by decide)
            (by decide) (by decide) (by decide)
        rw [h1, find_sizeStage_DPI _ hw4, if_pos hpx4, hDD]
      · have h1 : Pattern.find (Pattern.SubstituteDefault p) PIXEL_SIZE =
            Pattern.find (Pattern.sizeStage (Pattern.preSize p)) PIXEL_SIZE :=
          find_postSize_ne _ PIXEL_SIZE (by decide) (by decide) (by decide) (by decide)
            (by decide) (by decide) (by decide) (by decide)
        rw [h1, find_sizeStage_PIXEL _ hw4, if_pos hpx4, hDS, hDC, hDD]
      · have h1 : Pattern.find (Pattern.SubstituteDefault p) SIZE =
            Pattern.find (Pattern.sizeStage (Pattern.preSize p)) SIZE :=
          find_postSize_ne _ SIZE (by decide) (by decide) (by decide) (by decide) (by decide)
            (by decide) (by decide) (by decide)
        have hres : (Pattern.preSize p).sizeResult = p.defaultedSize := by
          unfold Pattern.sizeResult
          rw [if_pos hpx4, hDS]
        rw [h1, find_sizeStage_SIZE _ hw4, hres]
    · rw [if_neg hpx]
      have hpx4 : (Pattern.getVals (Pattern.preSize p) PIXEL_SIZE).length ≠ 0 := by
        rw [hgl]
        exact hpx
      constructor
      · have h1 : Pattern.find (Pattern.SubstituteDefault p) SIZE =
            Pattern.find (Pattern.sizeStage (Pattern.preSize p)) SIZE :=
          find_postSize_ne _ SIZE (by decide) (by decide) (by decide) (by decide) (by decide)
            (by decide) (by decide) (by decide)
        have hres : (Pattern.preSize p).sizeResult =
            p.pixelHead / p.defaultedDpi * 72 / p.defaultedScale := by
          unfold Pattern.sizeResult
          rw [if_neg hpx4, hPH, hDD, hDC]
        rw [h1, find_sizeStage_SIZE _ hw4, hres]
      · have h1 : Pattern.find (Pattern.SubstituteDefault p) PIXEL_SIZE =
            Pattern.find (Pattern.sizeStage (Pattern.preSize p)) PIXEL_SIZE :=
          find_postSize_ne _ PIXEL_SIZE (by decide) (by decide) (by decide) (by decide)
            (by decide) (by decide) (by decide) (by decide)
        rw [h1, find_sizeStage_PIXEL _ hw4, if_neg hpx4, hgP]

/-- Witness for `size_pixel_resolution` at the empty pattern: its
hypothesis holds and, the `DPI` object being absent, the dpi resolves to
75 and is stored by `SubstituteDefault`. -/
theorem size_pixel_resolution_witness :
    Pattern.wf NewPattern ∧
      Pattern.find (Pattern.SubstituteDefault NewPattern) DPI =
        some [⟨.vFloat 75, .strong⟩] := by
  have h := size_pixel_resolution NewPattern (by decide)
  have hpx : (Pattern.getVals NewPattern PIXEL_SIZE).length = 0 := by decide
  rw [if_pos hpx] at h
  have hd : NewPattern.defaultedDpi = 75 := h.2.2.1 rfl
  have hdpi := h.2.2.2.2.2.1
  rw [hd] at hdpi
  exact ⟨by decide, hdpi⟩

/-- C2 counterexample: on the pattern `{DPI: 0.0}` (a legal insertion,
`DPI` admits floats) the first run stores `SIZE = 12` and
`PIXEL_SIZE = 12 * 1 * (0 / 72) = 0`; the second run back-computes
`SIZE` as `0 / 0 * 72 / 1` from the stored pixel size — `0` in this
exact rational embedding, `NaN` in Go float arithmetic, in either case
not `12` — so applying `SubstituteDefault` twice does not yield the
same pattern as applying it once. -/
theorem substituteDefault_not_idempotent :
    Pattern.SubstituteDefault (Pattern.SubstituteDefault (Pattern.AddFloat NewPattern DPI 0)) ≠
      Pattern.SubstituteDefault (Pattern.AddFloat NewPattern DPI 0) := by
  intro heq
  set p0 := Pattern.AddFloat NewPattern DPI 0 with hp0
  have hw0 : Pattern.wf p0 := by decide
  set r4 := Pattern.preSize p0
  set r5 := Pattern.sizeStage r4
  have hq : Pattern.SubstituteDefault p0 = Pattern.postSize r5 := rfl
  set q := Pattern.postSize r5
  have hw4 : Pattern.wf r4 := wf_preSize p0 hw0
  have hw5 : Pattern.wf r5 := wf_sizeStage r4 hw4
  have hwq : Pattern.wf q := wf_postSize r5 hw5
  have hgP : Pattern.find r4 PIXEL_SIZE = Pattern.find p0 PIXEL_SIZE :=
    find_preSize_ne p0 PIXEL_SIZE (by decide) (by decide) (by decide) (by decide)
  have hgZ : Pattern.find r4 SIZE = Pattern.find p0 SIZE :=
    find_preSize_ne p0 SIZE (by decide) (by decide) (by decide) (by decide)
  have hgS : Pattern.find r4 SCALE = Pattern.find p0 SCALE :=
    find_preSize_ne p0 SCALE (by decide) (by decide) (by decide) (by decide)
  have hgD : Pattern.find r4 DPI = Pattern.find p0 DPI :=
    find_preSize_ne p0 DPI (by decide) (by decide) (by decide) (by decide)
  have hpx4 : (Pattern.getVals r4 PIXEL_SIZE).length = 0 := by
    rw [getVals_eq, hgP]
    rfl
  have hDS : r4.defaultedSize = 12 := by
    rw [defaultedSize_congr r4 p0 hgZ, hp0]
    decide
  have hDC : r4.defaultedScale = 1 := by
    rw [defaultedScale_congr r4 p0 hgS, hp0]
    decide
  have hDD : r4.defaultedDpi = 0 := by
    rw [defaultedDpi_congr r4 p0 hgD, hp0]
    decide
  have hfZ : Pattern.find q SIZE = Pattern.find r5 SIZE :=
    find_postSize_ne r5 SIZE (by decide) (by decide) (by decide) (by decide) (by decide)
      (by decide) (by decide) (by decide)
  have hfP : Pattern.find q PIXEL_SIZE = Pattern.find r5 PIXEL_SIZE :=
    find_postSize_ne r5 PIXEL_SIZE (by decide) (by decide) (by decide) (by decide) (by decide)
      (by decide) (by decide) (by decide)
  have hfS : Pattern.find q SCALE = Pattern.find r5 SCALE :=
    find_postSize_ne r5 SCALE (by decide) (by decide) (by decide) (by decide) (by decide)
      (by decide) (by decide) (by decide)
  have hfD : Pattern.find q DPI = Pattern.find r5 DPI :=
    find_postSize_ne r5 DPI (by decide) (by decide) (by decide) (by decide) (by decide)
      (by decide) (by decide) (by decide)
  have hqZ : Pattern.find q SIZE = some [⟨.vFloat 12, .strong⟩] := by
    rw [hfZ, find_sizeStage_SIZE r4 hw4]
    have : r4.sizeResult = 12 := by
      unfold Pattern.sizeResult
      rw [if_pos hpx4, hDS]
    rw [this]
  have hqP : Pattern.find q PIXEL_SIZE = some [⟨.vFloat (12 * 1 * (0 / 72)), .strong⟩] := by
    rw [hfP, find_sizeStage_PIXEL r4 hw4, if_pos hpx4, hDS, hDC, hDD]
  have hqS : Pattern.find q SCALE = some [⟨.vFloat 1, .strong⟩] := by
    rw [hfS, find_sizeStage_SCALE r4 hw4, if_pos hpx4, hDC]
  have hqD : Pattern.find q DPI = some [⟨.vFloat 0, .strong⟩] := by
    rw [hfD, find_sizeStage_DPI r4 hw4, if_pos hpx4, hDD]
  -- the second run
  set s4 := Pattern.preSize q
  have hsgP : Pattern.find s4 PIXEL_SIZE = Pattern.find q PIXEL_SIZE :=
    find_preSize_ne q PIXEL_SIZE (by decide) (by decide) (by decide) (by decide)
  have hsgZ2 : Pattern.find (Pattern.SubstituteDefault q) SIZE =
      Pattern.find (Pattern.sizeStage s4) SIZE :=
    find_postSize_ne _ SIZE (by decide) (by decide) (by decide) (by decide) (by decide)
      (by decide) (by decide) (by decide)
  have hw4' : Pattern.wf s4 := wf_preSize q hwq
  have hspx : (Pattern.getVals s4 PIXEL_SIZE).length ≠ 0 := by
    rw [getVals_eq, hsgP, hqP]
    simp
  have hsHead : s4.pixelHead = 12 * 1 * (0 / 72) :=
    pixelHead_of_find s4 _ _ [] (hsgP.trans hqP)
  have hsDC : s4.defaultedScale = 1 :=
    defaultedScale_of_find s4 _ _
      ((find_preSize_ne q SCALE (by decide) (by decide) (by decide) (by decide)).trans hqS)
  have hsDD : s4.defaultedDpi = 0 :=
    defaultedDpi_of_find s4 _ _
      ((find_preSize_ne q DPI (by decide) (by decide) (by decide) (by decide)).trans hqD)
  have hsres : s4.sizeResult = 12 * 1 * (0 / 72) / 0 * 72 / 1 := by
    unfold Pattern.sizeResult
    rw [if_neg hspx, hsHead, hsDC, hsDD]
  have h2Z : Pattern.find (Pattern.SubstituteDefault q) SIZE =
      some [⟨.vFloat (12 * 1 * (0 / 72) / 0 * 72 / 1), .strong⟩] := by
    rw [hsgZ2, find_sizeStage_SIZE s4 hw4', hsres]
  rw [hq] at heq
  rw [heq, hqZ] at h2Z
  simp only [Option.some.injEq, List.cons.injEq] at h2Z
  obtain ⟨h3, -⟩ := h2Z
  injection h3 with h4 h5
  injection h4 with h6
  norm_num at h6

end Fontconfig
